import Mathlib

/-!
# bsl::net : message framing, connection state machines, server registry

A shallow embedding of `net_message.h`, `net_connection.h` and `net_server.h`.

Conventions of the embedding

* `uint8_t` is `Fin 256`; a `std::vector<uint8_t>` is a `List Byte`.
* `size_t` and `uint32_t` values are natural numbers; a narrowing store or a
  subtraction that can go below zero is written out with its modulus.
* A value of a standard-layout `DataType` is its object representation: the
  list of its `sizeof(DataType)` bytes.
* A `std::shared_ptr<connection<T>>` is `Option Ptr`: `none` is `nullptr`,
  `some a` points at the connection object at address `a`.
* Asynchronous operations are events: issuing `asio::async_write` or
  `asio::async_read` records the outstanding operation, and its completion
  handler is a function from the state at completion time to the next state.
-/

namespace bsl.net

/-! ## Machine integers -/

/-- One `uint8_t`. -/
abbrev Byte := Fin 256

/-- The number of values of a 64-bit `size_t`. -/
def SIZE_MOD : Nat := 2 ^ 64

/-- The number of values of a `uint32_t`. -/
def UINT32_MOD : Nat := 2 ^ 32

/-- Conversion of a `size_t` to `uint32_t` (the store `header.size = msg.size()`). -/
def to_uint32 (n : Nat) : Nat := n % UINT32_MOD

/-- Subtraction `a - b` of two `size_t` values: below zero it wraps around by `2^64`. -/
def size_sub (a b : Nat) : Nat := if b ≤ a then a - b else a + SIZE_MOD - b

/-! ## net_message.h -/

/-- The struct `message_header<T>`: `T id{}; uint32_t size = 0;`. -/
structure message_header where
  id : Nat
  size : Nat
deriving DecidableEq, Repr

/-- The struct `message<T>`: a header and the body bytes. -/
structure message where
  header : message_header
  body : List Byte
deriving DecidableEq, Repr

/-- A default-constructed `message<T>`: `header{}` and an empty body. -/
def message.default : message := { header := { id := 0, size := 0 }, body := [] }

/-- The member `message::size()`: `return body.size();`. -/
def message.size (msg : message) : Nat := msg.body.length

/-- The call `std::vector<uint8_t>::resize(n)`: keep the first `n` bytes, or
extend with value-initialised (zero) bytes up to length `n`. -/
def resize (v : List Byte) (n : Nat) : List Byte :=
  v.take n ++ List.replicate (n - v.length) 0

/-- The call `std::memcpy(v.data() + i, src, src.size())` on a vector: the
bytes at `[i, i + |src|)` are overwritten by `src`. -/
def memcpy_to (v : List Byte) (i : Nat) (src : List Byte) : List Byte :=
  v.take i ++ src ++ v.drop (i + src.length)

/-- The call `std::memcpy(&data, v.data() + i, n)` from a vector: the bytes the
vector holds at `[i, i + n)`. Bytes outside the storage of the vector are not
part of the model. -/
def memcpy_from (v : List Byte) (i n : Nat) : List Byte :=
  (v.drop i).take n

/-- The friend `operator<<(message<T>& msg, const DataType& data)`; `data` is
the object representation, `data.length = sizeof(DataType)`. -/
def operator_lshift (msg : message) (data : List Byte) : message :=
  let i := msg.body.length
  let body1 := resize msg.body (msg.body.length + data.length)
  let body2 := memcpy_to body1 i data
  { header := { id := msg.header.id, size := to_uint32 body2.length }, body := body2 }

/-- The value of `std::vector<uint8_t>::max_size()` on a 64-bit target: `PTRDIFF_MAX`.
It also bounds `sizeof` of every type. -/
def MAX_SIZE : Nat := 2 ^ 63 - 1

/-- The call `std::vector<uint8_t>::resize(n)` with its failure: shrinking always
succeeds, growing to more than `max_size()` elements throws `std::length_error`
(`none`) and leaves the vector as it was. -/
def vector_resize (v : List Byte) (n : Nat) : Option (List Byte) :=
  if n ≤ v.length ∨ n ≤ MAX_SIZE then some (resize v n) else none

/-- How a call of `operator>>` ends when it does not return: `body.resize(n)`
throws `std::length_error`. -/
inductive rshift_failure where
  | length_error (n : Nat)
deriving DecidableEq, Repr

/-- The friend `operator>>(message<T>& msg, DataType& data)` for a `DataType`
with `sizeof(DataType) = sz`; yields the message as the call leaves it and
either the bytes copied into `data` or the failure the call ends with. The
start index is `body.size() - sizeof(DataType)` in `size_t`; `std::memcpy`
reads from it, then `body.resize` is called with it. When the index has
wrapped around the read lies outside the vector (it may fault, and then too
the call does not return) and `body.resize` throws before the body or
`header.size` is stored. -/
def operator_rshift (sz : Nat) (msg : message) : message × Except rshift_failure (List Byte) :=
  let i := size_sub msg.body.length sz
  let data := memcpy_from msg.body i sz
  match vector_resize msg.body i with
  | none => (msg, Except.error (rshift_failure.length_error i))
  | some body1 =>
    ({ header := { id := msg.header.id, size := to_uint32 body1.length }, body := body1 },
     Except.ok data)

/-- Chained `msg << v1 << v2 << ... << vn`. -/
def pushAll : List (List Byte) → message → message
  | [], msg => msg
  | v :: vs, msg => pushAll vs (operator_lshift msg v)

/-- Chained `msg >> x1 >> x2 >> ... >> xn` for destination sizes `s1, ..., sn`;
yields the message afterwards and the extracted values in extraction order.
The chain ends at an `operator>>` that throws. -/
def pullAll : List Nat → message → message × List (List Byte)
  | [], msg => (msg, [])
  | s :: ss, msg =>
    match operator_rshift s msg with
    | (msg1, Except.ok data) =>
      let rest := pullAll ss msg1
      (rest.1, data :: rest.2)
    | (msg1, Except.error _) => (msg1, [])

/-- One application of a message operator: `msg << data` or `msg >> x` with
`sizeof(x) = sz`. -/
inductive MsgOp where
  | lshift (data : List Byte)
  | rshift (sz : Nat)
deriving DecidableEq, Repr

/-- The message after one operator application; after an `operator>>` that
throws it is the message as it was. -/
def applyOp (msg : message) : MsgOp → message
  | MsgOp.lshift data => operator_lshift msg data
  | MsgOp.rshift sz => (operator_rshift sz msg).1

/-- The message after a finite sequence of operator applications, left to right. -/
def runOps : List MsgOp → message → message
  | [], msg => msg
  | op :: ops, msg => runOps ops (applyOp msg op)

/-- Every `>>` of the sequence is applied when the body holds at least
`sizeof(DataType)` bytes. -/
def opsGuarded : List MsgOp → message → Bool
  | [], _ => true
  | MsgOp.lshift data :: ops, msg => opsGuarded ops (operator_lshift msg data)
  | MsgOp.rshift sz :: ops, msg =>
    decide (sz ≤ msg.body.length) && opsGuarded ops (operator_rshift sz msg).1

/-- A value of a standard-layout type of `2^32` bytes, all zero. -/
def bigValue : List Byte := List.replicate UINT32_MOD 0

/-- Address of a connection object: what a non-null `shared_ptr<connection<T>>` holds. -/
abbrev Ptr := Nat

/-- The struct `owned_message<T>`: the connection the message came from (or
`nullptr`) and the message. -/
structure owned_message where
  remote : Option Ptr
  msg : message
deriving DecidableEq, Repr

/-! ## net_tsqueue.h -/

/-- Modelled from the spec: the class `tsqueue<T>` of `net_tsqueue.h`, which is
not among the sources. "Unbounded ordered sequence of T, push appends at tail,
pop removes from head (FIFO)." -/
structure tsqueue (α : Type) where
  items : List α
deriving DecidableEq, Repr

/-- Modelled from the spec: `empty() -> bool`. -/
def tsqueue.empty {α : Type} (q : tsqueue α) : Bool := q.items.isEmpty

/-- Modelled from the spec: `pushBack(T)`, "push appends at tail". -/
def tsqueue.push_back {α : Type} (q : tsqueue α) (x : α) : tsqueue α :=
  { items := q.items ++ [x] }

/-- Modelled from the spec: the head of the queue, the element `front()` refers
to; `none` on an empty queue, which callers rule out with `empty()` first. -/
def tsqueue.front {α : Type} (q : tsqueue α) : Option α := q.items.head?

/-- Modelled from the spec: `popFront() -> T`, "pop removes from head"; the
queue that remains. -/
def tsqueue.pop_front {α : Type} (q : tsqueue α) : tsqueue α :=
  { items := q.items.tail }

/-! ## net_connection.h -/

/-- The enum `connection::owner`. -/
inductive owner where
  | server
  | client
deriving DecidableEq, Repr

/-- An outstanding `asio::async_read`: the one issued by `ReadHeader` or the
one issued by `ReadBody`. -/
inductive ReadOp where
  | header
  | body
deriving DecidableEq, Repr

/-- An outstanding `asio::async_write`: the one issued by `WriteHeader` or the
one issued by `WriteBody`. -/
inductive WriteOp where
  | header
  | body
deriving DecidableEq, Repr

/-- The 4 bytes of a 32-bit unsigned integer, least significant first. -/
def le32 (n : Nat) : List Byte :=
  [⟨n % 256, Nat.mod_lt _ (by decide)⟩, ⟨n / 256 % 256, Nat.mod_lt _ (by decide)⟩,
   ⟨n / 65536 % 256, Nat.mod_lt _ (by decide)⟩, ⟨n / 16777216 % 256, Nat.mod_lt _ (by decide)⟩]

/-- The 32-bit unsigned integer stored least significant byte first in the
first 4 bytes of `bs`; a missing byte reads as zero. -/
def of_le32 (bs : List Byte) : Nat :=
  (bs.getD 0 0).val + 256 * (bs.getD 1 0).val + 65536 * (bs.getD 2 0).val
    + 16777216 * (bs.getD 3 0).val

/-- The constant `sizeof(message_header<T>)` for a 32-bit `T`, as in
`enum class CustomMsgTypes : uint32_t`. -/
def HEADER_SIZE : Nat := 8

/-- The object representation `asio::buffer(&header, sizeof(message_header<T>))`
hands to the socket: `id` then `size`, 4 bytes each, in the little-endian
layout both ends share. -/
def header_bytes (h : message_header) : List Byte := le32 h.id ++ le32 h.size

/-- The header that `async_read` leaves in `m_msgTemporaryIn.header` once the
`sizeof(message_header<T>)` bytes `bs` have arrived. -/
def header_of_bytes (bs : List Byte) : message_header :=
  { id := of_le32 bs, size := of_le32 (bs.drop 4) }

/-- The class `connection<T>`: its data members, the object address `self`
(what `shared_from_this()` yields), whether `m_socket.is_open()`, the
asynchronous reads and writes that are outstanding, and `wire`, the bytes of
the buffers passed to `asio::async_write`, in issue order. -/
structure connection where
  self : Ptr
  m_nOwnerType : owner
  id : Nat
  socketOpen : Bool
  m_qMessagesOut : tsqueue message
  m_qMessagesIn : tsqueue owned_message
  m_msgTemporaryIn : message
  pendingReads : List ReadOp
  pendingWrites : List WriteOp
  wire : List Byte
deriving DecidableEq, Repr

/-- A connection as its constructor leaves it, on an open socket. -/
def connection.create (self : Ptr) (parent : owner) : connection :=
  { self := self, m_nOwnerType := parent, id := 0, socketOpen := true,
    m_qMessagesOut := { items := [] }, m_qMessagesIn := { items := [] },
    m_msgTemporaryIn := message.default, pendingReads := [], pendingWrites := [], wire := [] }

/-- The member `IsConnected()`: `return m_socket.is_open();`. -/
def IsConnected (c : connection) : Bool := c.socketOpen

/-- The member `WriteHeader()`: issue the `async_write` of the header of the
front of the outgoing queue. -/
def WriteHeader (c : connection) : connection :=
  match c.m_qMessagesOut.front with
  | none => c
  | some m =>
    { c with pendingWrites := c.pendingWrites ++ [WriteOp.header],
             wire := c.wire ++ header_bytes m.header }

/-- The member `WriteBody()`: issue the `async_write` of the body of the front
of the outgoing queue, `body.size()` bytes. -/
def WriteBody (c : connection) : connection :=
  match c.m_qMessagesOut.front with
  | none => c
  | some m =>
    { c with pendingWrites := c.pendingWrites ++ [WriteOp.body],
             wire := c.wire ++ m.body }

/-- The completion handler of `WriteHeader`; `ec` is true when the write
reports an error. -/
def WriteHeader_done (ec : Bool) (c : connection) : connection :=
  if !ec then
    match c.m_qMessagesOut.front with
    | none => c
    | some m =>
      if m.body.length > 0 then
        WriteBody c
      else
        let c1 := { c with m_qMessagesOut := c.m_qMessagesOut.pop_front }
        if !c1.m_qMessagesOut.empty then WriteHeader c1 else c1
  else
    { c with socketOpen := false }

/-- The completion handler of `WriteBody`; `ec` is true when the write reports
an error. -/
def WriteBody_done (ec : Bool) (c : connection) : connection :=
  if !ec then
    let c1 := { c with m_qMessagesOut := c.m_qMessagesOut.pop_front }
    if !c1.m_qMessagesOut.empty then WriteHeader c1 else c1
  else
    { c with socketOpen := false }

/-- The function object `Send(msg)` posts to the context, run on the connection. -/
def Send (msg : message) (c : connection) : connection :=
  let bWritingMessage := !c.m_qMessagesOut.empty
  let c1 := { c with m_qMessagesOut := c.m_qMessagesOut.push_back msg }
  if !bWritingMessage then WriteHeader c1 else c1

/-- Completion of the oldest outstanding write: its handler runs. Nothing
happens when no write is outstanding. -/
def write_complete (ec : Bool) (c : connection) : connection :=
  match c.pendingWrites with
  | [] => c
  | WriteOp.header :: ops => WriteHeader_done ec { c with pendingWrites := ops }
  | WriteOp.body :: ops => WriteBody_done ec { c with pendingWrites := ops }

/-- What happens on the write side of a connection: a posted `Send` runs, or
the outstanding write completes without error. -/
inductive WriteEvent where
  | send (msg : message)
  | done
deriving DecidableEq, Repr

/-- One write-side event. -/
def write_step (c : connection) : WriteEvent → connection
  | WriteEvent.send msg => Send msg c
  | WriteEvent.done => write_complete false c

/-- A sequence of write-side events, in the order they run on the context. -/
def write_run : List WriteEvent → connection → connection
  | [], c => c
  | e :: es, c => write_run es (write_step c e)

/-- Let up to `fuel` further write completions run, without error. -/
def write_drain : Nat → connection → connection
  | 0, c => c
  | fuel + 1, c => write_drain fuel (write_complete false c)

/-- The messages passed to `Send` in a sequence of write-side events, in order. -/
def sent_messages : List WriteEvent → List message
  | [] => []
  | WriteEvent.send msg :: es => msg :: sent_messages es
  | WriteEvent.done :: es => sent_messages es

/-- The bytes of one message as the write path hands them over: header, then body. -/
def wire_bytes (msg : message) : List Byte := header_bytes msg.header ++ msg.body

/-- The member `ReadHeader()`: issue the `async_read` of `sizeof(message_header<T>)` bytes. -/
def ReadHeader (c : connection) : connection :=
  { c with pendingReads := c.pendingReads ++ [ReadOp.header] }

/-- The member `ReadBody()`: issue the `async_read` of `m_msgTemporaryIn.body.size()` bytes. -/
def ReadBody (c : connection) : connection :=
  { c with pendingReads := c.pendingReads ++ [ReadOp.body] }

/-- The member `AddToIncomingMessageQueue()`. -/
def AddToIncomingMessageQueue (c : connection) : connection :=
  let c1 :=
    if c.m_nOwnerType = owner.server then
      { c with m_qMessagesIn :=
          c.m_qMessagesIn.push_back { remote := some c.self, msg := c.m_msgTemporaryIn } }
    else
      { c with m_qMessagesIn :=
          c.m_qMessagesIn.push_back { remote := none, msg := c.m_msgTemporaryIn } }
  ReadHeader c1

/-- The completion handler of `ReadHeader`; `bs` are the bytes read into
`m_msgTemporaryIn.header`, `ec` is true when the read reports an error. -/
def ReadHeader_done (ec : Bool) (bs : List Byte) (c : connection) : connection :=
  if !ec then
    let c1 := { c with m_msgTemporaryIn :=
                  { c.m_msgTemporaryIn with header := header_of_bytes bs } }
    if c1.m_msgTemporaryIn.header.size > 0 then
      ReadBody { c1 with m_msgTemporaryIn :=
                   { c1.m_msgTemporaryIn with
                       body := resize c1.m_msgTemporaryIn.body c1.m_msgTemporaryIn.header.size } }
    else
      AddToIncomingMessageQueue c1
  else
    { c with socketOpen := false }

/-- The completion handler of `ReadBody`; `bs` are the bytes read into
`m_msgTemporaryIn.body.data()`, `ec` is true when the read reports an error. -/
def ReadBody_done (ec : Bool) (bs : List Byte) (c : connection) : connection :=
  if !ec then
    AddToIncomingMessageQueue
      { c with m_msgTemporaryIn :=
          { c.m_msgTemporaryIn with body := memcpy_to c.m_msgTemporaryIn.body 0 bs } }
  else
    { c with socketOpen := false }

/-- The member `ConnectToClient(uid)`. -/
def ConnectToClient (uid : Nat) (c : connection) : connection :=
  if c.m_nOwnerType = owner.server then
    if c.socketOpen then ReadHeader { c with id := uid } else c
  else c

/-- The oldest outstanding read completes without error if the stream holds
the bytes its buffer asks for: they are taken off the stream and the handler
runs. Otherwise the read stays outstanding. -/
def read_step (c : connection) (input : List Byte) : Option (connection × List Byte) :=
  match c.pendingReads with
  | [] => none
  | ReadOp.header :: ops =>
    if HEADER_SIZE ≤ input.length then
      some (ReadHeader_done false (input.take HEADER_SIZE) { c with pendingReads := ops },
            input.drop HEADER_SIZE)
    else none
  | ReadOp.body :: ops =>
    if c.m_msgTemporaryIn.body.length ≤ input.length then
      some (ReadBody_done false (input.take c.m_msgTemporaryIn.body.length)
              { c with pendingReads := ops },
            input.drop c.m_msgTemporaryIn.body.length)
    else none

/-- Read completions, one after the other, as long as the stream serves them
(at most `fuel` of them); yields the connection and the bytes not consumed. -/
def read_run : Nat → connection → List Byte → connection × List Byte
  | 0, c, input => (c, input)
  | fuel + 1, c, input =>
    match read_step c input with
    | none => (c, input)
    | some r => read_run fuel r.1 r.2

/-- The read state machine fed the byte stream `input`. A header completion
takes `sizeof(message_header<T>)` bytes off the stream and at most one body
completion follows it, so fewer than `2 * input.length + 2` completions run. -/
def feed (c : connection) (input : List Byte) : connection × List Byte :=
  read_run (2 * input.length + 2) c input

/-! ## net_server.h -/

/-- A call the server makes on a connection or on one of its extension points,
recorded in call order: `client->Send(msg)`, `OnClientDisconnect(client)`,
`OnMessage(client, msg)`. -/
inductive Call where
  | Send (client : Ptr) (msg : message)
  | OnClientDisconnect (client : Option Ptr)
  | OnMessage (client : Option Ptr) (msg : message)
deriving DecidableEq, Repr

/-- The class `server_interface<T>`: the incoming queue, the container of
connections (each a `shared_ptr`, possibly null), the ID counter, and the
calls made so far. -/
structure server_interface where
  m_qMessagesIn : tsqueue owned_message
  m_deqConnections : List (Option Ptr)
  nIDCounter : Nat
  calls : List Call
deriving DecidableEq, Repr

/-- The test `client && client->IsConnected()`; `isConnected a` is what
`IsConnected()` returns on the connection at address `a` when asked. -/
def client_ok (isConnected : Ptr → Bool) : Option Ptr → Bool
  | none => false
  | some a => isConnected a

/-- The idiom `deq.erase(std::remove(deq.begin(), deq.end(), value), deq.end())`:
every element equal to `value` goes, the others keep their order. -/
def erase_remove (deq : List (Option Ptr)) (value : Option Ptr) : List (Option Ptr) :=
  deq.filter (fun x => decide (x ≠ value))

/-- The member `MessageClient(client, msg)`. The parameter `client` is a copy
of the caller's pointer; `client.reset()` makes that copy null before it is
handed to `std::remove`. -/
def MessageClient (isConnected : Ptr → Bool) (client : Option Ptr) (msg : message)
    (s : server_interface) : server_interface :=
  match client with
  | some a =>
    if isConnected a then
      { s with calls := s.calls ++ [Call.Send a msg] }
    else
      let s1 := { s with calls := s.calls ++ [Call.OnClientDisconnect (some a)] }
      let client1 : Option Ptr := none
      { s1 with m_deqConnections := erase_remove s1.m_deqConnections client1 }
  | none =>
    let s1 := { s with calls := s.calls ++ [Call.OnClientDisconnect none] }
    let client1 : Option Ptr := none
    { s1 with m_deqConnections := erase_remove s1.m_deqConnections client1 }

/-- The range-for of `MessageAllClients` over the container: yields the
container with the swept entries (a dead one reset to null), the calls made,
and `bInvalidClientExists`. -/
def MessageAllClients_loop (isConnected : Ptr → Bool) (msg : message)
    (pIgnoreClient : Option Ptr) :
    List (Option Ptr) → List Call → Bool → List (Option Ptr) × List Call × Bool
  | [], calls, bInvalidClientExists => ([], calls, bInvalidClientExists)
  | client :: rest, calls, bInvalidClientExists =>
    match client with
    | some a =>
      if isConnected a then
        let calls1 := if client ≠ pIgnoreClient then calls ++ [Call.Send a msg] else calls
        let r := MessageAllClients_loop isConnected msg pIgnoreClient rest calls1
                   bInvalidClientExists
        (client :: r.1, r.2.1, r.2.2)
      else
        let r := MessageAllClients_loop isConnected msg pIgnoreClient rest
                   (calls ++ [Call.OnClientDisconnect client]) true
        (none :: r.1, r.2.1, r.2.2)
    | none =>
      let r := MessageAllClients_loop isConnected msg pIgnoreClient rest
                 (calls ++ [Call.OnClientDisconnect client]) true
      (none :: r.1, r.2.1, r.2.2)

/-- The member `MessageAllClients(msg, pIgnoreClient)`. -/
def MessageAllClients (isConnected : Ptr → Bool) (msg : message)
    (pIgnoreClient : Option Ptr) (s : server_interface) : server_interface :=
  let r := MessageAllClients_loop isConnected msg pIgnoreClient s.m_deqConnections s.calls false
  let deq1 := if r.2.2 then erase_remove r.1 none else r.1
  { s with m_deqConnections := deq1, calls := r.2.1 }

/-- The `while` loop of `Update`: `nMessageCount` counts up from its current
value while it is below `nMaxMessages` and the queue is not empty; the front
entry is popped and passed to `OnMessage`. The counter stays at most
`nMaxMessages`, a `size_t`, so its increment does not wrap. -/
def Update_loop (nMaxMessages : Nat) :
    Nat → List owned_message → List Call → List owned_message × List Call
  | _, [], calls => ([], calls)
  | nMessageCount, e :: q, calls =>
    if nMessageCount < nMaxMessages then
      Update_loop nMaxMessages (nMessageCount + 1) q (calls ++ [Call.OnMessage e.remote e.msg])
    else
      (e :: q, calls)

/-- The member `Update(nMaxMessages, bWait)`, with no push arriving during the
call. `m_qMessagesIn.wait()` returns once the queue is not empty: on an empty
queue it does not return, which is `none`. -/
def Update (nMaxMessages : Nat) (bWait : Bool) (s : server_interface) : Option server_interface :=
  if bWait && s.m_qMessagesIn.empty then none
  else
    let r := Update_loop nMaxMessages 0 s.m_qMessagesIn.items s.calls
    some { s with m_qMessagesIn := { items := r.1 }, calls := r.2 }

/-- The default argument `size_t nMaxMessages = -1`. -/
def UPDATE_DEFAULT_MAX : Nat := SIZE_MOD - 1

/-- The target of a recorded `Send`, if the call is one. -/
def Call.sendTarget : Call → Option (Ptr × message)
  | Call.Send a msg => some (a, msg)
  | _ => none

/-- The argument of a recorded `OnClientDisconnect`, if the call is one. -/
def Call.disconnectArg : Call → Option (Option Ptr)
  | Call.OnClientDisconnect client => some client
  | _ => none

/-- The arguments of a recorded `OnMessage`, if the call is one. -/
def Call.messageArgs : Call → Option (Option Ptr × message)
  | Call.OnMessage client msg => some (client, msg)
  | _ => none

/-! ## Auxiliary notions for the write path -/

/-- The write side is consistent: nothing is outstanding and the outgoing
queue is empty, or exactly one write is outstanding and the queue is not empty. -/
def WriteInv (c : connection) : Prop :=
  (c.pendingWrites = [] ∧ c.m_qMessagesOut.items = []) ∨
  (c.pendingWrites = [WriteOp.header] ∧ c.m_qMessagesOut.items ≠ []) ∨
  (c.pendingWrites = [WriteOp.body] ∧ c.m_qMessagesOut.items ≠ [])

instance WriteInv.decidable (c : connection) : Decidable (WriteInv c) := by
  unfold WriteInv
  infer_instance

/-- The bytes of the queued messages that no `async_write` has been issued for yet. -/
def write_rest (c : connection) : List Byte :=
  match c.pendingWrites, c.m_qMessagesOut.items with
  | [WriteOp.header], m :: rest => m.body ++ rest.flatMap wire_bytes
  | [WriteOp.body], _ :: rest => rest.flatMap wire_bytes
  | _, _ => []

/-- The number of write completions still to come for the queued messages. -/
def write_todo (c : connection) : Nat :=
  match c.pendingWrites with
  | [] => 0
  | WriteOp.header :: _ => 2 * c.m_qMessagesOut.items.length
  | WriteOp.body :: _ => 2 * c.m_qMessagesOut.items.length - 1

/-! ## The connection as one event-driven machine -/

/-- Completion of the oldest outstanding read with the bytes `bs` in its
buffer: its handler runs. Nothing happens when no read is outstanding. -/
def read_complete (ec : Bool) (bs : List Byte) (c : connection) : connection :=
  match c.pendingReads with
  | [] => c
  | ReadOp.header :: ops => ReadHeader_done ec bs { c with pendingReads := ops }
  | ReadOp.body :: ops => ReadBody_done ec bs { c with pendingReads := ops }

/-- What the context runs for one connection: a posted `Send`, the completion
of the outstanding write, or the completion of the outstanding read; `ec` is
true when the completion reports an error. -/
inductive ConnEvent where
  | send (msg : message)
  | write_done (ec : Bool)
  | read_done (ec : Bool) (bs : List Byte)
deriving DecidableEq, Repr

/-- One event on the connection. -/
def conn_step (c : connection) : ConnEvent → connection
  | ConnEvent.send msg => Send msg c
  | ConnEvent.write_done ec => write_complete ec c
  | ConnEvent.read_done ec bs => read_complete ec bs c

/-- A sequence of events, in the order the context runs them. -/
def conn_run : List ConnEvent → connection → connection
  | [], c => c
  | e :: es, c => conn_run es (conn_step c e)

/-- No write completion of the sequence reports an error. -/
def no_write_failure : List ConnEvent → Bool
  | [] => true
  | ConnEvent.write_done true :: _ => false
  | _ :: es => no_write_failure es

/-- The messages passed to `Send` in a sequence of events, in order. -/
def conn_sent : List ConnEvent → List message
  | [] => []
  | ConnEvent.send msg :: es => msg :: conn_sent es
  | _ :: es => conn_sent es

/-- The write side while no write has failed: nothing is outstanding and the
outgoing queue is empty, or the one outstanding write is that of the header of
the front message (the last bytes handed over), or that of its body. -/
def WriteHead (c : connection) : Prop :=
  (c.pendingWrites = [] ∧ c.m_qMessagesOut.items = []) ∨
  (∃ m rest w, c.pendingWrites = [WriteOp.header] ∧ c.m_qMessagesOut.items = m :: rest ∧
      c.wire = w ++ header_bytes m.header) ∨
  (∃ m rest w, c.pendingWrites = [WriteOp.body] ∧ c.m_qMessagesOut.items = m :: rest ∧
      c.wire = w ++ header_bytes m.header ++ m.body)

/-- The write side after a failed write: nothing is outstanding and the
message whose write failed is still at the front of the outgoing queue. -/
def WriteFailed (c : connection) : Prop :=
  c.pendingWrites = [] ∧ c.m_qMessagesOut.items ≠ []

/-! ## Accepting connections -/

/-- A `server_interface<T>` as its constructor leaves it: empty queue, empty
container, `nIDCounter = 10000`. -/
def server_interface.create : server_interface :=
  { m_qMessagesIn := { items := [] }, m_deqConnections := [], nIDCounter := 10000, calls := [] }

/-- What one `async_accept` completes with: an error code, or a socket. For a
socket, `addr` is the address `std::make_shared<connection<T>>` gives the new
connection and `allow` is what `OnClientConnect(newconn)` returns. -/
inductive AcceptResult where
  | error
  | socket (addr : Ptr) (allow : Bool)
deriving DecidableEq, Repr

/-- The completion handler of `WaitForClientConnection`, up to the point where
it calls `WaitForClientConnection()` again: the server afterwards and, when the
connection was admitted, the connection object now held by the container.
`nIDCounter++` is an increment of a `uint32_t`. -/
def WaitForClientConnection_done (r : AcceptResult) (s : server_interface) :
    server_interface × Option connection :=
  match r with
  | AcceptResult.error => (s, none)
  | AcceptResult.socket addr allow =>
    let newconn := connection.create addr owner.server
    if allow then
      let s1 := { s with m_deqConnections := s.m_deqConnections ++ [some addr] }
      let uid := s1.nIDCounter
      let s2 := { s1 with nIDCounter := (s1.nIDCounter + 1) % UINT32_MOD }
      (s2, some (ConnectToClient uid newconn))
    else
      (s, none)

/-- A sequence of accept completions: the server afterwards and the admitted
connections, in admission order. -/
def accept_run : List AcceptResult → server_interface → server_interface × List connection
  | [], s => (s, [])
  | r :: rs, s =>
    let a := WaitForClientConnection_done r s
    let rest := accept_run rs a.1
    (rest.1, a.2.toList ++ rest.2)

/-- The number of admissions in a sequence of accept completions. -/
def admitted : List AcceptResult → Nat
  | [] => 0
  | AcceptResult.socket _ true :: rs => admitted rs + 1
  | _ :: rs => admitted rs

/-- The addresses of the connections admitted in a sequence of accept
completions, in admission order. -/
def admitted_addrs : List AcceptResult → List Ptr
  | [] => []
  | AcceptResult.socket addr true :: rs => addr :: admitted_addrs rs
  | _ :: rs => admitted_addrs rs

/-- The accept completions of `n` sockets, each admitted, at the addresses `0, ..., n - 1`. -/
def acceptAll (n : Nat) : List AcceptResult :=
  (List.range n).map (fun a => AcceptResult.socket a true)

/-! ## Lemmas on the message operators -/

theorem size_sub_of_le {a b : Nat} (h : b ≤ a) : size_sub a b = a - b := by
  simp [size_sub, h]

/-- On `size_t` operands the case split of `size_sub` is subtraction modulo `2^64`. -/
theorem size_sub_eq_mod {a b : Nat} (ha : a < SIZE_MOD) (hb : b < SIZE_MOD) :
    size_sub a b = (a + SIZE_MOD - b) % SIZE_MOD := by
  unfold size_sub
  split
  · next h =>
    have : a + SIZE_MOD - b = (a - b) + SIZE_MOD := by omega
    rw [this, Nat.add_mod_right, Nat.mod_eq_of_lt (by omega)]
  · next h =>
    rw [Nat.mod_eq_of_lt (by omega)]

theorem resize_le {v : List Byte} {n : Nat} (h : n ≤ v.length) : resize v n = v.take n := by
  simp [resize, Nat.sub_eq_zero_of_le h]

theorem length_resize (v : List Byte) (n : Nat) : (resize v n).length = n := by
  simp [resize]
  omega

theorem operator_lshift_body (msg : message) (data : List Byte) :
    (operator_lshift msg data).body = msg.body ++ data := by
  have h1 : msg.body.take (msg.body.length + data.length) = msg.body :=
    List.take_of_length_le (by omega)
  simp only [operator_lshift, resize, memcpy_to, h1]
  rw [List.take_left, List.drop_of_length_le (by simp)]
  simp

theorem operator_lshift_header (msg : message) (data : List Byte) :
    (operator_lshift msg data).header =
      { id := msg.header.id, size := to_uint32 (msg.body.length + data.length) } := by
  have h := operator_lshift_body msg data
  simp only [operator_lshift] at h ⊢
  rw [h]
  simp

theorem operator_lshift_eq (msg : message) (data : List Byte) :
    operator_lshift msg data =
      { header := { id := msg.header.id, size := to_uint32 (msg.body.length + data.length) },
        body := msg.body ++ data } := by
  have h1 := operator_lshift_body msg data
  have h2 := operator_lshift_header msg data
  cases h : operator_lshift msg data with
  | mk hd bd =>
    rw [h] at h1 h2
    simp only at h1 h2
    rw [h1, h2]

theorem vector_resize_le {v : List Byte} {n : Nat} (h : n ≤ v.length) :
    vector_resize v n = some (v.take n) := by
  simp [vector_resize, h, resize_le h]

/-- Extraction from a body that holds enough bytes: the last `sz` bytes come
out and the body is cut by them. -/
theorem operator_rshift_of_le (sz : Nat) (msg : message) (h : sz ≤ msg.body.length) :
    operator_rshift sz msg =
      ({ header := { id := msg.header.id, size := to_uint32 (msg.body.length - sz) },
         body := msg.body.take (msg.body.length - sz) },
       Except.ok (msg.body.drop (msg.body.length - sz))) := by
  have hlen : (msg.body.drop (msg.body.length - sz)).length ≤ sz := by
    simp
    omega
  have hmin : (msg.body.take (msg.body.length - sz)).length = msg.body.length - sz := by
    simp
  simp only [operator_rshift, size_sub_of_le h, memcpy_from,
    vector_resize_le (Nat.sub_le _ _), List.take_of_length_le hlen, hmin]

/-- Extraction of the value that was appended last. -/
theorem operator_rshift_append (msg : message) (pre data : List Byte)
    (h : msg.body = pre ++ data) :
    operator_rshift data.length msg =
      ({ header := { id := msg.header.id, size := to_uint32 pre.length }, body := pre },
       Except.ok data) := by
  have hle : data.length ≤ msg.body.length := by simp [h]
  rw [operator_rshift_of_le _ _ hle, h]
  simp

theorem pullAll_cons_ok (s : Nat) (ss : List Nat) (msg msg1 : message) (data : List Byte)
    (h : operator_rshift s msg = (msg1, Except.ok data)) :
    pullAll (s :: ss) msg = ((pullAll ss msg1).1, data :: (pullAll ss msg1).2) := by
  simp only [pullAll, h]

/-- A chain whose first part extracts all its values goes on with the rest. -/
theorem pullAll_append (ss ts : List Nat) (msg : message)
    (h : (pullAll ss msg).2.length = ss.length) :
    pullAll (ss ++ ts) msg =
      ((pullAll ts (pullAll ss msg).1).1, (pullAll ss msg).2 ++ (pullAll ts (pullAll ss msg).1).2) := by
  induction ss generalizing msg with
  | nil => simp [pullAll]
  | cons s ss ih =>
    cases hr : operator_rshift s msg with
    | mk msg1 res =>
      cases res with
      | error e =>
        simp [pullAll, hr] at h
      | ok data =>
        rw [pullAll_cons_ok s ss msg msg1 data hr] at h ⊢
        rw [List.cons_append, pullAll_cons_ok s (ss ++ ts) msg msg1 data hr]
        simp only [List.length_cons, Nat.add_right_cancel_iff] at h
        rw [ih msg1 h]
        simp

/-- Appending `vs` and extracting in reverse type order gives the values back
in reverse order and restores the body; the header size is recomputed from the
body as soon as one operator has run. -/
theorem pullAll_pushAll (vs : List (List Byte)) (msg : message) :
    pullAll (vs.map List.length).reverse (pushAll vs msg) =
      ({ header := { id := msg.header.id,
                     size := if vs = [] then msg.header.size else to_uint32 msg.body.length },
         body := msg.body }, vs.reverse) := by
  induction vs generalizing msg with
  | nil => simp [pullAll, pushAll]
  | cons v vs ih =>
    have hb : (operator_lshift msg v).body = msg.body ++ v := operator_lshift_body msg v
    have hid : (operator_lshift msg v).header.id = msg.header.id := by
      rw [operator_lshift_header]
    have ih1 := ih (operator_lshift msg v)
    simp only [List.map_cons, List.reverse_cons, pushAll]
    rw [pullAll_append _ _ _ (by rw [ih1]; simp), ih1]
    simp only
    rw [pullAll_cons_ok v.length [] _ _ v
      (operator_rshift_append _ msg.body v (by simpa using hb))]
    simp [hid, pullAll]

/-! ## Claims on the message operators -/

/-- C1: push/pop stack law. For a message with an empty body, appending
`v1..vn` with `operator<<` and then extracting `n` values with `operator>>`
in reverse type order yields `vn..v1`, and leaves the body empty and
`header.size` at zero (the kind is untouched). With no value at all nothing
runs, so `header.size` is then zero when it was zero. -/
theorem C1_push_pop_stack_law (msg : message) (vs : List (List Byte))
    (hbody : msg.body = []) (hsize : vs ≠ [] ∨ msg.header.size = 0) :
    pullAll (vs.map List.length).reverse (pushAll vs msg) =
      ({ header := { id := msg.header.id, size := 0 }, body := [] }, vs.reverse) := by
  rw [pullAll_pushAll, hbody]
  rcases hsize with h | h
  · simp [h, to_uint32]
  · by_cases hv : vs = []
    · simp [hv, h]
    · simp [hv, to_uint32]

/-- C1 at a concrete input: a 4-byte value and a 2-byte value pushed onto the
default message and pulled back in reverse order. -/
theorem C1_push_pop_stack_law_witness :
    pullAll ([[1, 2, 3, 4], [5, 6]].map List.length).reverse
        (pushAll [[1, 2, 3, 4], [5, 6]] message.default) =
      ({ header := { id := message.default.header.id, size := 0 }, body := [] },
        [[1, 2, 3, 4], [5, 6]].reverse) :=
  C1_push_pop_stack_law message.default [[1, 2, 3, 4], [5, 6]] rfl (Or.inl (by decide))

/-! ## Invariant of the write path -/

theorem Send_inv (msg : message) (c : connection) (h : WriteInv c) :
    WriteInv (Send msg c) ∧
      (Send msg c).wire ++ write_rest (Send msg c) = c.wire ++ write_rest c ++ wire_bytes msg := by
  obtain ⟨self, own, id, so, ⟨qo⟩, qi, tmp, pr, pw, w⟩ := c
  rcases h with ⟨h1, h2⟩ | ⟨h1, h2⟩ | ⟨h1, h2⟩
  · simp only at h1 h2
    subst h1 h2
    simp [Send, WriteInv, write_rest, WriteHeader, tsqueue.empty, tsqueue.push_back,
      tsqueue.front, wire_bytes]
  · simp only at h1 h2
    subst h1
    cases qo with
    | nil => exact absurd rfl h2
    | cons m rest =>
      simp [Send, WriteInv, write_rest, WriteHeader, tsqueue.empty, tsqueue.push_back,
        tsqueue.front, wire_bytes]
  · simp only at h1 h2
    subst h1
    cases qo with
    | nil => exact absurd rfl h2
    | cons m rest =>
      simp [Send, WriteInv, write_rest, WriteHeader, tsqueue.empty, tsqueue.push_back,
        tsqueue.front, wire_bytes]

theorem write_complete_inv (c : connection) (h : WriteInv c) :
    WriteInv (write_complete false c) ∧
      (write_complete false c).wire ++ write_rest (write_complete false c)
        = c.wire ++ write_rest c ∧
      (write_complete false c).socketOpen = c.socketOpen ∧
      (c.pendingWrites ≠ [] → write_todo (write_complete false c) < write_todo c) := by
  obtain ⟨self, own, id, so, ⟨qo⟩, qi, tmp, pr, pw, w⟩ := c
  rcases h with ⟨h1, h2⟩ | ⟨h1, h2⟩ | ⟨h1, h2⟩
  · simp only at h1 h2
    subst h1 h2
    simp [write_complete, WriteInv, write_rest]
  · simp only at h1 h2
    subst h1
    cases qo with
    | nil => exact absurd rfl h2
    | cons m rest =>
      by_cases hb : m.body = []
      · cases rest with
        | nil =>
          simp [write_complete, WriteHeader_done, WriteBody, WriteHeader, WriteInv, write_rest,
            write_todo, tsqueue.empty, tsqueue.pop_front, tsqueue.front, hb]
        | cons m2 rest2 =>
          simp [write_complete, WriteHeader_done, WriteBody, WriteHeader, WriteInv, write_rest,
            write_todo, tsqueue.empty, tsqueue.pop_front, tsqueue.front, hb, wire_bytes]
      · have hpos : 0 < m.body.length := List.length_pos.mpr hb
        simp [write_complete, WriteHeader_done, WriteBody, WriteHeader, WriteInv, write_rest,
            write_todo, tsqueue.empty, tsqueue.pop_front, tsqueue.front, hpos]
  · simp only at h1 h2
    subst h1
    cases qo with
    | nil => exact absurd rfl h2
    | cons m rest =>
      cases rest with
      | nil =>
        simp [write_complete, WriteBody_done, WriteHeader, WriteInv, write_rest,
          write_todo, tsqueue.empty, tsqueue.pop_front, tsqueue.front]
      | cons m2 rest2 =>
        simp [write_complete, WriteBody_done, WriteHeader, WriteInv, write_rest,
          write_todo, tsqueue.empty, tsqueue.pop_front, tsqueue.front, wire_bytes]
        omega

/-! ## The write path -/

theorem write_run_inv (evs : List WriteEvent) (c : connection) (h : WriteInv c) :
    WriteInv (write_run evs c) ∧
      (write_run evs c).wire ++ write_rest (write_run evs c)
        = c.wire ++ write_rest c ++ (sent_messages evs).flatMap wire_bytes := by
  induction evs generalizing c with
  | nil => simp [write_run, sent_messages, h]
  | cons e es ih =>
    cases e with
    | send msg =>
      obtain ⟨hi, hw⟩ := Send_inv msg c h
      obtain ⟨hi2, hw2⟩ := ih (Send msg c) hi
      refine ⟨hi2, ?_⟩
      simp only [write_run, write_step, sent_messages, List.flatMap_cons]
      rw [hw2, hw]
      simp
    | done =>
      obtain ⟨hi, hw, _, _⟩ := write_complete_inv c h
      obtain ⟨hi2, hw2⟩ := ih (write_complete false c) hi
      refine ⟨hi2, ?_⟩
      simp only [write_run, write_step, sent_messages]
      rw [hw2, hw]

theorem write_todo_le (c : connection) : write_todo c ≤ 2 * c.m_qMessagesOut.items.length := by
  unfold write_todo
  split <;> omega

theorem write_idle_of_todo_zero (c : connection) (h : WriteInv c) (h0 : write_todo c = 0) :
    c.pendingWrites = [] ∧ c.m_qMessagesOut.items = [] := by
  rcases h with ⟨h1, h2⟩ | ⟨h1, h2⟩ | ⟨h1, h2⟩
  · exact ⟨h1, h2⟩
  · have := List.length_pos.mpr h2
    unfold write_todo at h0
    rw [h1] at h0
    simp only at h0
    omega
  · have := List.length_pos.mpr h2
    unfold write_todo at h0
    rw [h1] at h0
    simp only at h0
    omega

theorem write_rest_idle (c : connection) (h : c.pendingWrites = []) : write_rest c = [] := by
  simp [write_rest, h]

theorem write_complete_idle (c : connection) (h : c.pendingWrites = []) :
    write_complete false c = c := by
  simp [write_complete, h]

/-- Enough completions empty the outgoing queue and hand over every queued byte. -/
theorem write_drain_done (fuel : Nat) (c : connection) (h : WriteInv c)
    (hf : write_todo c ≤ fuel) :
    (write_drain fuel c).pendingWrites = [] ∧ (write_drain fuel c).m_qMessagesOut.items = [] ∧
      (write_drain fuel c).wire = c.wire ++ write_rest c := by
  induction fuel generalizing c with
  | zero =>
    obtain ⟨h1, h2⟩ := write_idle_of_todo_zero c h (by omega)
    simp [write_drain, h1, h2, write_rest_idle]
  | succ n ih =>
    simp only [write_drain]
    by_cases hp : c.pendingWrites = []
    · rw [write_complete_idle c hp]
      exact ih c h (by simp [write_todo, hp])
    · obtain ⟨hi, hw, _, hlt⟩ := write_complete_inv c h
      obtain ⟨a, b, d⟩ := ih (write_complete false c) hi (by have := hlt hp; omega)
      exact ⟨a, b, by rw [d, hw]⟩

/-- C3: per-connection FIFO on the write path. On a connection whose outgoing
queue is empty and that has no write outstanding, let posted `Send(m1)`, ...,
`Send(mn)` run interleaved in any way with write completions, none reporting
an error. The bytes handed to the socket so far always begin the stream
`header(m1) ++ body(m1) ++ ... ++ header(mn) ++ body(mn)`; once the remaining
completions have run the bytes handed over are exactly that stream, the
outgoing queue is empty and no write is outstanding. -/
theorem C3_write_path_fifo (c0 : connection) (evs : List WriteEvent)
    (hq : c0.m_qMessagesOut.items = []) (hp : c0.pendingWrites = []) :
    (∃ rest, (write_run evs c0).wire ++ rest
        = c0.wire ++ (sent_messages evs).flatMap wire_bytes) ∧
    (write_drain (2 * (write_run evs c0).m_qMessagesOut.items.length) (write_run evs c0)).wire
        = c0.wire ++ (sent_messages evs).flatMap wire_bytes ∧
    (write_drain (2 * (write_run evs c0).m_qMessagesOut.items.length)
        (write_run evs c0)).m_qMessagesOut.items = [] ∧
    (write_drain (2 * (write_run evs c0).m_qMessagesOut.items.length)
        (write_run evs c0)).pendingWrites = [] := by
  have h0 : WriteInv c0 := Or.inl ⟨hp, hq⟩
  obtain ⟨hi, hw⟩ := write_run_inv evs c0 h0
  rw [write_rest_idle c0 hp, List.append_nil] at hw
  obtain ⟨a, b, d⟩ := write_drain_done _ (write_run evs c0) hi (write_todo_le _)
  exact ⟨⟨_, hw⟩, by rw [d, hw], b, a⟩

/-- C3 at a concrete run: two sends, a completion in between, on a fresh connection. -/
theorem C3_write_path_fifo_witness :
    (∃ rest, (write_run
          [WriteEvent.send { header := { id := 3, size := 1 }, body := [7] }, WriteEvent.done,
           WriteEvent.send { header := { id := 2, size := 0 }, body := [] }]
          (connection.create 1 owner.server)).wire ++ rest
        = (connection.create 1 owner.server).wire ++ (sent_messages
          [WriteEvent.send { header := { id := 3, size := 1 }, body := [7] }, WriteEvent.done,
           WriteEvent.send { header := { id := 2, size := 0 }, body := [] }]).flatMap wire_bytes) ∧
    (write_drain (2 * (write_run
          [WriteEvent.send { header := { id := 3, size := 1 }, body := [7] }, WriteEvent.done,
           WriteEvent.send { header := { id := 2, size := 0 }, body := [] }]
          (connection.create 1 owner.server)).m_qMessagesOut.items.length) (write_run
          [WriteEvent.send { header := { id := 3, size := 1 }, body := [7] }, WriteEvent.done,
           WriteEvent.send { header := { id := 2, size := 0 }, body := [] }]
          (connection.create 1 owner.server))).wire
        = (connection.create 1 owner.server).wire ++ (sent_messages
          [WriteEvent.send { header := { id := 3, size := 1 }, body := [7] }, WriteEvent.done,
           WriteEvent.send { header := { id := 2, size := 0 }, body := [] }]).flatMap wire_bytes ∧
    (write_drain (2 * (write_run
          [WriteEvent.send { header := { id := 3, size := 1 }, body := [7] }, WriteEvent.done,
           WriteEvent.send { header := { id := 2, size := 0 }, body := [] }]
          (connection.create 1 owner.server)).m_qMessagesOut.items.length) (write_run
          [WriteEvent.send { header := { id := 3, size := 1 }, body := [7] }, WriteEvent.done,
           WriteEvent.send { header := { id := 2, size := 0 }, body := [] }]
          (connection.create 1 owner.server))).m_qMessagesOut.items = [] ∧
    (write_drain (2 * (write_run
          [WriteEvent.send { header := { id := 3, size := 1 }, body := [7] }, WriteEvent.done,
           WriteEvent.send { header := { id := 2, size := 0 }, body := [] }]
          (connection.create 1 owner.server)).m_qMessagesOut.items.length) (write_run
          [WriteEvent.send { header := { id := 3, size := 1 }, body := [7] }, WriteEvent.done,
           WriteEvent.send { header := { id := 2, size := 0 }, body := [] }]
          (connection.create 1 owner.server))).pendingWrites = [] :=
  C3_write_path_fifo (connection.create 1 owner.server)
    [WriteEvent.send { header := { id := 3, size := 1 }, body := [7] }, WriteEvent.done,
     WriteEvent.send { header := { id := 2, size := 0 }, body := [] }] rfl rfl


/-! ## The read path -/

/-- C2: the framing round trip on the read path, evaluated on the stream of a
message with a 1-byte body followed by a message with an empty body. Two
entries are pushed, and the second one carries `header.size = 0` together with
the body of the first: `ReadHeader` passes `m_msgTemporaryIn` on without
resizing its body when the header announces no body. The whole stream is
consumed and the machine waits for the next header. -/
theorem C2_empty_message_keeps_previous_body :
    (feed (ConnectToClient 10000 (connection.create 1 owner.server))
        (wire_bytes { header := { id := 3, size := 1 }, body := [7] } ++
         wire_bytes { header := { id := 2, size := 0 }, body := [] })).1.m_qMessagesIn.items =
      [{ remote := some 1, msg := { header := { id := 3, size := 1 }, body := [7] } },
       { remote := some 1, msg := { header := { id := 2, size := 0 }, body := [7] } }] ∧
    (feed (ConnectToClient 10000 (connection.create 1 owner.server))
        (wire_bytes { header := { id := 3, size := 1 }, body := [7] } ++
         wire_bytes { header := { id := 2, size := 0 }, body := [] })).2 = [] ∧
    (feed (ConnectToClient 10000 (connection.create 1 owner.server))
        (wire_bytes { header := { id := 3, size := 1 }, body := [7] } ++
         wire_bytes { header := { id := 2, size := 0 }, body := [] })).1.pendingReads =
      [ReadOp.header] := by
  decide

/-! ## The server registry -/

theorem client_ok_none (isConnected : Ptr → Bool) : client_ok isConnected none = false := rfl

theorem client_ok_some (isConnected : Ptr → Bool) (a : Ptr) :
    client_ok isConnected (some a) = isConnected a := rfl

theorem MessageAllClients_loop_fst (isConnected : Ptr → Bool) (msg : message)
    (pIgnoreClient : Option Ptr) (deq : List (Option Ptr)) (calls : List Call) (b : Bool) :
    (MessageAllClients_loop isConnected msg pIgnoreClient deq calls b).1 =
      deq.map (fun e => if client_ok isConnected e then e else none) := by
  induction deq generalizing calls b with
  | nil => simp [MessageAllClients_loop]
  | cons e rest ih =>
    cases e with
    | none => simp [MessageAllClients_loop, client_ok_none, client_ok_some, ih]
    | some a =>
      by_cases h : isConnected a
      · simp [MessageAllClients_loop, client_ok_none, client_ok_some, h, ih]
      · simp [MessageAllClients_loop, client_ok_none, client_ok_some, h, ih]

theorem MessageAllClients_loop_flag (isConnected : Ptr → Bool) (msg : message)
    (pIgnoreClient : Option Ptr) (deq : List (Option Ptr)) (calls : List Call) (b : Bool) :
    (MessageAllClients_loop isConnected msg pIgnoreClient deq calls b).2.2 =
      (b || deq.any (fun e => !client_ok isConnected e)) := by
  induction deq generalizing calls b with
  | nil => simp [MessageAllClients_loop]
  | cons e rest ih =>
    cases e with
    | none => simp [MessageAllClients_loop, client_ok_none, client_ok_some, ih]
    | some a =>
      by_cases h : isConnected a
      · simp [MessageAllClients_loop, client_ok_none, client_ok_some, h, ih]
      · simp [MessageAllClients_loop, client_ok_none, client_ok_some, h, ih]

theorem MessageAllClients_loop_sends (isConnected : Ptr → Bool) (msg : message)
    (pIgnoreClient : Option Ptr) (deq : List (Option Ptr)) (calls : List Call) (b : Bool) :
    (MessageAllClients_loop isConnected msg pIgnoreClient deq calls b).2.1.filterMap
        Call.sendTarget =
      calls.filterMap Call.sendTarget ++
        ((deq.filter (fun e => client_ok isConnected e && decide (e ≠ pIgnoreClient))).filterMap
          (fun e => e.map (fun a => (a, msg)))) := by
  induction deq generalizing calls b with
  | nil => simp [MessageAllClients_loop]
  | cons e rest ih =>
    cases e with
    | none => simp [MessageAllClients_loop, client_ok_none, client_ok_some, ih, Call.sendTarget]
    | some a =>
      by_cases h : isConnected a
      · by_cases hi : some a = pIgnoreClient
        · subst hi
          simp [MessageAllClients_loop, client_ok_none, client_ok_some, h, ih]
        · simp [MessageAllClients_loop, client_ok_none, client_ok_some, h, ih, hi, Call.sendTarget]
      · simp [MessageAllClients_loop, client_ok_none, client_ok_some, h, ih, Call.sendTarget]

theorem MessageAllClients_loop_disconnects (isConnected : Ptr → Bool) (msg : message)
    (pIgnoreClient : Option Ptr) (deq : List (Option Ptr)) (calls : List Call) (b : Bool) :
    (MessageAllClients_loop isConnected msg pIgnoreClient deq calls b).2.1.filterMap
        Call.disconnectArg =
      calls.filterMap Call.disconnectArg ++
        deq.filter (fun e => !client_ok isConnected e) := by
  induction deq generalizing calls b with
  | nil => simp [MessageAllClients_loop]
  | cons e rest ih =>
    cases e with
    | none => simp [MessageAllClients_loop, client_ok_none, client_ok_some, ih, Call.disconnectArg]
    | some a =>
      by_cases h : isConnected a
      · by_cases hi : some a = pIgnoreClient
        · subst hi
          simp [MessageAllClients_loop, client_ok_none, client_ok_some, h, ih]
        · simp [MessageAllClients_loop, client_ok_none, client_ok_some, h, ih, hi, Call.disconnectArg]
      · simp [MessageAllClients_loop, client_ok_none, client_ok_some, h, ih, Call.disconnectArg]

theorem erase_remove_swept (isConnected : Ptr → Bool) (deq : List (Option Ptr)) :
    erase_remove (deq.map (fun e => if client_ok isConnected e then e else none)) none =
      deq.filter (client_ok isConnected) := by
  induction deq with
  | nil => simp [erase_remove]
  | cons e rest ih =>
    simp [erase_remove] at ih
    cases e with
    | none => simp [erase_remove, client_ok_none, client_ok_some, ih]
    | some a =>
      by_cases h : isConnected a
      · simp [erase_remove, client_ok_none, client_ok_some, h, ih]
      · simp [erase_remove, client_ok_none, client_ok_some, h, ih]

theorem swept_of_all_ok (isConnected : Ptr → Bool) (deq : List (Option Ptr))
    (h : deq.any (fun e => !client_ok isConnected e) = false) :
    deq.map (fun e => if client_ok isConnected e then e else none) =
      deq.filter (client_ok isConnected) := by
  induction deq with
  | nil => simp
  | cons e rest ih =>
    simp only [List.any_cons, Bool.or_eq_false_iff, Bool.not_eq_false'] at h
    simp [h.1, ih h.2]

theorem MessageAllClients_registry (isConnected : Ptr → Bool) (msg : message)
    (pIgnoreClient : Option Ptr) (s : server_interface) :
    (MessageAllClients isConnected msg pIgnoreClient s).m_deqConnections =
      s.m_deqConnections.filter (client_ok isConnected) := by
  simp only [MessageAllClients, MessageAllClients_loop_flag, MessageAllClients_loop_fst,
    Bool.false_or]
  split
  · exact erase_remove_swept isConnected _
  · next h =>
    exact swept_of_all_ok isConnected _ (by simpa using h)

theorem MessageAllClients_calls (isConnected : Ptr → Bool) (msg : message)
    (pIgnoreClient : Option Ptr) (s : server_interface) :
    (MessageAllClients isConnected msg pIgnoreClient s).calls =
      (MessageAllClients_loop isConnected msg pIgnoreClient s.m_deqConnections s.calls false).2.1 :=
  rfl

/-- C4: broadcast exclusion. The `Send` calls that `MessageAllClients(msg, C)`
adds are, in registry order, one `Send(msg)` for each registry entry that is
connected and is not `C`: as many calls as there are such entries, none of
them on `C` and none on a connection that is not connected. -/
theorem C4_broadcast_exclusion (isConnected : Ptr → Bool) (msg : message)
    (pIgnoreClient : Option Ptr) (s : server_interface) :
    (MessageAllClients isConnected msg pIgnoreClient s).calls.filterMap Call.sendTarget =
        s.calls.filterMap Call.sendTarget ++
          ((s.m_deqConnections.filter
              (fun e => client_ok isConnected e && decide (e ≠ pIgnoreClient))).filterMap
            (fun e => e.map (fun a => (a, msg)))) ∧
    (((s.m_deqConnections.filter
              (fun e => client_ok isConnected e && decide (e ≠ pIgnoreClient))).filterMap
            (fun e => e.map (fun a => (a, msg)))).length =
        (s.m_deqConnections.filter
              (fun e => client_ok isConnected e && decide (e ≠ pIgnoreClient))).length) ∧
    (∀ t ∈ ((s.m_deqConnections.filter
              (fun e => client_ok isConnected e && decide (e ≠ pIgnoreClient))).filterMap
            (fun e => e.map (fun a => (a, msg)))),
        t.2 = msg ∧ some t.1 ∈ s.m_deqConnections ∧ some t.1 ≠ pIgnoreClient ∧
          isConnected t.1 = true) := by
  refine ⟨?_, ?_, ?_⟩
  · rw [MessageAllClients_calls, MessageAllClients_loop_sends]
  · generalize s.m_deqConnections = deq
    induction deq with
    | nil => simp
    | cons e rest ih =>
      cases e with
      | none => simpa [client_ok_none] using ih
      | some a =>
        simp only [List.filter_cons]
        split
        · simpa using ih
        · exact ih
  · intro t ht
    rw [List.mem_filterMap] at ht
    obtain ⟨e, he, hmap⟩ := ht
    rw [List.mem_filter] at he
    obtain ⟨hmem, hok⟩ := he
    cases e with
    | none => simp at hmap
    | some a =>
      simp only [Option.map_some', Option.some.injEq] at hmap
      subst hmap
      simp only [client_ok_some, Bool.and_eq_true, decide_eq_true_eq] at hok
      exact ⟨rfl, hmem, hok.2, hok.1⟩

/-- C5: dead-peer handling in unicast, evaluated on the registry `[c1, c2]`
with `c1` not connected. `MessageClient(c1, msg)` calls `OnClientDisconnect`
for `c1` and returns with the registry unchanged, `c1` still in it: the
pointer handed to `std::remove` is the parameter after `client.reset()`,
that is `nullptr`. -/
theorem C5_dead_client_stays_in_registry :
    MessageClient (fun a => decide (a = 2)) (some 1) message.default
        { m_qMessagesIn := { items := [] }, m_deqConnections := [some 1, some 2],
          nIDCounter := 10002, calls := [] } =
      { m_qMessagesIn := { items := [] }, m_deqConnections := [some 1, some 2],
        nIDCounter := 10002, calls := [Call.OnClientDisconnect (some 1)] } := by
  decide

/-- C6: broadcast purge. After `MessageAllClients(msg, exclude)` the registry
consists of exactly the entries that were connected when swept, in their
original relative order, no null entry remains, and the `OnClientDisconnect`
calls added are one for each entry that was not connected, in registry order,
whatever the excluded connection is. -/
theorem C6_broadcast_purge (isConnected : Ptr → Bool) (msg : message)
    (pIgnoreClient : Option Ptr) (s : server_interface) :
    (MessageAllClients isConnected msg pIgnoreClient s).m_deqConnections =
        s.m_deqConnections.filter (client_ok isConnected) ∧
    none ∉ (MessageAllClients isConnected msg pIgnoreClient s).m_deqConnections ∧
    (MessageAllClients isConnected msg pIgnoreClient s).calls.filterMap Call.disconnectArg =
        s.calls.filterMap Call.disconnectArg ++
          s.m_deqConnections.filter (fun e => !client_ok isConnected e) := by
  refine ⟨MessageAllClients_registry isConnected msg pIgnoreClient s, ?_, ?_⟩
  · rw [MessageAllClients_registry]
    intro h
    have := (List.mem_filter.mp h).2
    simp [client_ok_none] at this
  · rw [MessageAllClients_calls, MessageAllClients_loop_disconnects]

theorem Update_loop_eq (nMaxMessages : Nat) (q : List owned_message) (count : Nat)
    (calls : List Call) :
    Update_loop nMaxMessages count q calls =
      (q.drop (nMaxMessages - count),
       calls ++ (q.take (nMaxMessages - count)).map (fun e => Call.OnMessage e.remote e.msg)) := by
  induction q generalizing count calls with
  | nil => simp [Update_loop]
  | cons e q ih =>
    by_cases h : count < nMaxMessages
    · have hs : nMaxMessages - count = (nMaxMessages - (count + 1)) + 1 := by omega
      simp only [Update_loop, h, if_true, ih]
      rw [hs]
      simp
    · have hz : nMaxMessages - count = 0 := by omega
      simp [Update_loop, h, hz]

/-- C7: `Update` drains in queue order up to the limit. With the incoming
queue holding `e1..ek` and no push arriving during the call, `Update(n, false)`
returns, having added one `OnMessage(e.remote, e.msg)` call for each of the
first `min(n, k)` entries, in queue order, and leaving the entries after them
in the queue in order; with the default limit `size_t(-1)` it drains all `k`
entries, `k` being a `size_t`. -/
theorem C7_update_drains_in_order (n : Nat) (s : server_interface) :
    Update n false s =
        some { s with
          m_qMessagesIn := { items := s.m_qMessagesIn.items.drop n },
          calls := s.calls ++
            (s.m_qMessagesIn.items.take n).map (fun e => Call.OnMessage e.remote e.msg) } ∧
    (s.m_qMessagesIn.items.take n).length = min n s.m_qMessagesIn.items.length ∧
    (s.m_qMessagesIn.items.length < SIZE_MOD →
      Update UPDATE_DEFAULT_MAX false s =
        some { s with
          m_qMessagesIn := { items := [] },
          calls := s.calls ++
            s.m_qMessagesIn.items.map (fun e => Call.OnMessage e.remote e.msg) }) := by
  refine ⟨?_, ?_, ?_⟩
  · simp [Update, Update_loop_eq]
  · simp
  · intro hk
    have hle : s.m_qMessagesIn.items.length ≤ UPDATE_DEFAULT_MAX := by
      unfold UPDATE_DEFAULT_MAX
      omega
    simp [Update, Update_loop_eq, List.drop_of_length_le hle, List.take_of_length_le hle]

/-- C7 at a concrete queue of three entries: the limit 2, and the default limit. -/
theorem C7_update_drains_in_order_witness :
    Update 2 false
        { m_qMessagesIn := { items :=
            [{ remote := some 1, msg := { header := { id := 2, size := 0 }, body := [] } },
             { remote := some 2, msg := { header := { id := 3, size := 1 }, body := [9] } },
             { remote := some 1, msg := { header := { id := 3, size := 0 }, body := [] } }] },
          m_deqConnections := [some 1, some 2], nIDCounter := 10002, calls := [] } =
      some
        { m_qMessagesIn := { items :=
            [{ remote := some 1, msg := { header := { id := 3, size := 0 }, body := [] } }] },
          m_deqConnections := [some 1, some 2], nIDCounter := 10002,
          calls :=
            [Call.OnMessage (some 1) { header := { id := 2, size := 0 }, body := [] },
             Call.OnMessage (some 2) { header := { id := 3, size := 1 }, body := [9] }] } ∧
    Update UPDATE_DEFAULT_MAX false
        { m_qMessagesIn := { items :=
            [{ remote := some 1, msg := { header := { id := 2, size := 0 }, body := [] } },
             { remote := some 2, msg := { header := { id := 3, size := 1 }, body := [9] } },
             { remote := some 1, msg := { header := { id := 3, size := 0 }, body := [] } }] },
          m_deqConnections := [some 1, some 2], nIDCounter := 10002, calls := [] } =
      some
        { m_qMessagesIn := { items := [] },
          m_deqConnections := [some 1, some 2], nIDCounter := 10002,
          calls :=
            [Call.OnMessage (some 1) { header := { id := 2, size := 0 }, body := [] },
             Call.OnMessage (some 2) { header := { id := 3, size := 1 }, body := [9] },
             Call.OnMessage (some 1) { header := { id := 3, size := 0 }, body := [] }] } :=
  ⟨(C7_update_drains_in_order 2
      { m_qMessagesIn := { items :=
          [{ remote := some 1, msg := { header := { id := 2, size := 0 }, body := [] } },
           { remote := some 2, msg := { header := { id := 3, size := 1 }, body := [9] } },
           { remote := some 1, msg := { header := { id := 3, size := 0 }, body := [] } }] },
        m_deqConnections := [some 1, some 2], nIDCounter := 10002, calls := [] }).1,
   (C7_update_drains_in_order 2
      { m_qMessagesIn := { items :=
          [{ remote := some 1, msg := { header := { id := 2, size := 0 }, body := [] } },
           { remote := some 2, msg := { header := { id := 3, size := 1 }, body := [9] } },
           { remote := some 1, msg := { header := { id := 3, size := 0 }, body := [] } }] },
        m_deqConnections := [some 1, some 2], nIDCounter := 10002, calls := [] }).2.2
      (by simp [SIZE_MOD])⟩

/-! ## The size field of the header -/

theorem length_bigValue : bigValue.length = UINT32_MOD := by
  unfold bigValue
  exact List.length_replicate _ _

theorem applyOp_size (msg : message) (op : MsgOp)
    (hg : ∀ sz, op = MsgOp.rshift sz → sz ≤ msg.body.length) :
    (applyOp msg op).header.size = to_uint32 (applyOp msg op).body.length := by
  cases op with
  | lshift data => simp [applyOp, operator_lshift_eq]
  | rshift sz =>
    have h := hg sz rfl
    simp [applyOp, operator_rshift_of_le sz msg h]

theorem runOps_size (ops : List MsgOp) (msg : message)
    (h0 : msg.header.size = to_uint32 msg.body.length) (hg : opsGuarded ops msg = true) :
    (runOps ops msg).header.size = to_uint32 (runOps ops msg).body.length := by
  induction ops generalizing msg with
  | nil => simpa [runOps] using h0
  | cons op ops ih =>
    cases op with
    | lshift data =>
      exact ih (operator_lshift msg data)
        (applyOp_size msg (MsgOp.lshift data) (by intro sz h; cases h)) hg
    | rshift sz =>
      simp only [opsGuarded, Bool.and_eq_true, decide_eq_true_eq] at hg
      exact ih (operator_rshift sz msg).1
        (applyOp_size msg (MsgOp.rshift sz) (by intro sz2 h; cases h; exact hg.1)) hg.2

theorem operator_lshift_size (msg : message) (data : List Byte) :
    (operator_lshift msg data).header.size = to_uint32 (msg.body.length + data.length) := by
  rw [operator_lshift_header]

theorem operator_lshift_body_length (msg : message) (data : List Byte) :
    (operator_lshift msg data).body.length = msg.body.length + data.length := by
  rw [operator_lshift_body, List.length_append]

theorem runOps_single (op : MsgOp) (msg : message) : runOps [op] msg = applyOp msg op := rfl

theorem applyOp_lshift (msg : message) (data : List Byte) :
    applyOp msg (MsgOp.lshift data) = operator_lshift msg data := rfl

/-- C8 as stated fails: one `operator<<` of a value of `2^32` bytes on a
default-constructed message gives a body of `2^32` bytes, a length a `size_t`
holds, and `header.size = 0`. -/
theorem C8_counterexample :
    opsGuarded [MsgOp.lshift bigValue] message.default = true ∧
    (runOps [MsgOp.lshift bigValue] message.default).body.length = 4294967296 ∧
    (runOps [MsgOp.lshift bigValue] message.default).body.length < SIZE_MOD ∧
    (runOps [MsgOp.lshift bigValue] message.default).header.size = 0 ∧
    (runOps [MsgOp.lshift bigValue] message.default).header.size ≠
      (runOps [MsgOp.lshift bigValue] message.default).body.length := by
  have hb : (runOps [MsgOp.lshift bigValue] message.default).body.length = 4294967296 := by
    rw [runOps_single, applyOp_lshift, operator_lshift_body_length, length_bigValue]
    decide
  have hs : (runOps [MsgOp.lshift bigValue] message.default).header.size = 0 := by
    rw [runOps_single, applyOp_lshift, operator_lshift_size, length_bigValue]
    decide
  refine ⟨rfl, hb, ?_, hs, ?_⟩
  · rw [hb]
    decide
  · rw [hb, hs]
    decide

/-- C8, amended: for every message obtained from a default-constructed message
by a finite sequence of `operator<<` and `operator>>` applications, each `>>`
applied when the body holds at least `sizeof(DataType)` bytes, `header.size`
is the body length modulo `2^32`; it equals the body length whenever that is
below `2^32`. -/
theorem C8_size_invariant_mod (ops : List MsgOp)
    (hg : opsGuarded ops message.default = true) :
    (runOps ops message.default).header.size =
        (runOps ops message.default).body.length % 2 ^ 32 ∧
    ((runOps ops message.default).body.length < 2 ^ 32 →
      (runOps ops message.default).header.size = (runOps ops message.default).body.length) := by
  have h := runOps_size ops message.default (by simp [message.default, to_uint32]) hg
  simp only [to_uint32, UINT32_MOD] at h
  exact ⟨h, fun hlt => by rw [h, Nat.mod_eq_of_lt hlt]⟩

/-- C8, amended, at a concrete sequence: two appends and one extraction. -/
theorem C8_size_invariant_mod_witness :
    (runOps [MsgOp.lshift [1, 2, 3, 4], MsgOp.lshift [5, 6], MsgOp.rshift 2]
        message.default).header.size =
      (runOps [MsgOp.lshift [1, 2, 3, 4], MsgOp.lshift [5, 6], MsgOp.rshift 2]
        message.default).body.length % 2 ^ 32 :=
  (C8_size_invariant_mod [MsgOp.lshift [1, 2, 3, 4], MsgOp.lshift [5, 6], MsgOp.rshift 2]
    (by decide)).1

theorem length_le32 (n : Nat) : (le32 n).length = 4 := rfl

theorem length_header_bytes (h : message_header) : (header_bytes h).length = HEADER_SIZE := rfl

theorem of_le32_le32 (n : Nat) (xs : List Byte) (hn : n < 2 ^ 32) : of_le32 (le32 n ++ xs) = n := by
  simp only [le32, of_le32, List.cons_append, List.getD_cons_zero, List.getD_cons_succ]
  omega

theorem header_of_bytes_header_bytes (h : message_header) (hid : h.id < 2 ^ 32)
    (hsz : h.size < 2 ^ 32) : header_of_bytes (header_bytes h) = h := by
  have h1 : of_le32 (header_bytes h) = h.id := of_le32_le32 h.id (le32 h.size) hid
  have h2 : of_le32 ((header_bytes h).drop 4) = h.size := by
    have hd : (header_bytes h).drop 4 = le32 h.size ++ [] := by
      simp [header_bytes, le32]
    rw [hd]
    exact of_le32_le32 h.size [] hsz
  cases h with
  | mk id size =>
    simp only [header_of_bytes, h1, h2]

theorem wire_take_header (msg : message) (rest : List Byte) :
    (wire_bytes msg ++ rest).take HEADER_SIZE = header_bytes msg.header := by
  rw [wire_bytes, List.append_assoc]
  exact List.take_left' (length_header_bytes _)

theorem wire_drop_header (msg : message) (rest : List Byte) :
    (wire_bytes msg ++ rest).drop HEADER_SIZE = msg.body ++ rest := by
  rw [wire_bytes, List.append_assoc]
  exact List.drop_left' (length_header_bytes _)

theorem length_wire_bytes (msg : message) :
    (wire_bytes msg).length = HEADER_SIZE + msg.body.length := by
  rw [wire_bytes, List.length_append, length_header_bytes]

theorem Send_idle (msg : message) (c : connection) (hq : c.m_qMessagesOut.items = [])
    (hp : c.pendingWrites = []) :
    (Send msg c).m_qMessagesOut.items = [msg] ∧ (Send msg c).pendingWrites = [WriteOp.header] ∧
      (Send msg c).wire = c.wire ++ header_bytes msg.header := by
  obtain ⟨self, own, id, so, ⟨qo⟩, qi, tmp, pr, pw, w⟩ := c
  simp only at hq hp
  subst hq hp
  simp [Send, WriteHeader, tsqueue.empty, tsqueue.push_back, tsqueue.front]

theorem memcpy_to_full (v bs : List Byte) (h : v.length = bs.length) : memcpy_to v 0 bs = bs := by
  simp [memcpy_to, List.drop_of_length_le (Nat.le_of_eq h)]

theorem AddToIncomingMessageQueue_pendingReads (c : connection) :
    (AddToIncomingMessageQueue c).pendingReads = c.pendingReads ++ [ReadOp.header] := by
  unfold AddToIncomingMessageQueue ReadHeader
  split <;> rfl

theorem AddToIncomingMessageQueue_items (c : connection) :
    (AddToIncomingMessageQueue c).m_qMessagesIn.items =
      c.m_qMessagesIn.items ++
        [{ remote := if c.m_nOwnerType = owner.server then some c.self else none,
           msg := c.m_msgTemporaryIn }] := by
  unfold AddToIncomingMessageQueue ReadHeader
  split <;> simp [tsqueue.push_back, *]

theorem read_step_header (c : connection) (ops : List ReadOp) (input : List Byte)
    (hp : c.pendingReads = ReadOp.header :: ops) (hlen : HEADER_SIZE ≤ input.length) :
    read_step c input =
      some (ReadHeader_done false (input.take HEADER_SIZE) { c with pendingReads := ops },
            input.drop HEADER_SIZE) := by
  simp [read_step, hp, hlen]

theorem read_step_body (c : connection) (ops : List ReadOp) (input : List Byte)
    (hp : c.pendingReads = ReadOp.body :: ops)
    (hlen : c.m_msgTemporaryIn.body.length ≤ input.length) :
    read_step c input =
      some (ReadBody_done false (input.take c.m_msgTemporaryIn.body.length)
              { c with pendingReads := ops },
            input.drop c.m_msgTemporaryIn.body.length) := by
  simp [read_step, hp, hlen]

theorem ReadHeader_done_empty (bs : List Byte) (c : connection)
    (hz : (header_of_bytes bs).size = 0) :
    ReadHeader_done false bs c =
      AddToIncomingMessageQueue
        { c with m_msgTemporaryIn := { c.m_msgTemporaryIn with header := header_of_bytes bs } } := by
  simp [ReadHeader_done, hz]

theorem ReadHeader_done_body (bs : List Byte) (c : connection)
    (hz : 0 < (header_of_bytes bs).size) :
    ReadHeader_done false bs c =
      ReadBody
        { c with m_msgTemporaryIn :=
            { header := header_of_bytes bs,
              body := resize c.m_msgTemporaryIn.body (header_of_bytes bs).size } } := by
  simp [ReadHeader_done, hz]

theorem ReadBody_done_ok (bs : List Byte) (c : connection) :
    ReadBody_done false bs c =
      AddToIncomingMessageQueue
        { c with m_msgTemporaryIn :=
            { c.m_msgTemporaryIn with body := memcpy_to c.m_msgTemporaryIn.body 0 bs } } := by
  simp [ReadBody_done]

theorem read_run_one (c : connection) (input : List Byte) (r : connection × List Byte)
    (h : read_step c input = some r) : read_run 1 c input = r := by
  simp [read_run, h]

theorem read_run_two (c : connection) (input : List Byte) (r1 r2 : connection × List Byte)
    (h1 : read_step c input = some r1) (h2 : read_step r1.1 r1.2 = some r2) :
    read_run 2 c input = r2 := by
  simp [read_run, h1, h2]

/-- The read path on the bytes of one message whose `header.size` is its body
length: one header completion, and one body completion when the body is not
empty, take exactly the bytes of that message off the stream and push one
entry with that header. -/
theorem read_one_message (peer : connection) (msg : message) (rest : List Byte)
    (hp : peer.pendingReads = [ReadOp.header]) (hid : msg.header.id < 2 ^ 32)
    (hlt : msg.header.size < 2 ^ 32) (hinv : msg.header.size = msg.body.length) :
    (read_run (if msg.header.size > 0 then 2 else 1) peer (wire_bytes msg ++ rest)).2 = rest ∧
    (read_run (if msg.header.size > 0 then 2 else 1) peer
        (wire_bytes msg ++ rest)).1.pendingReads = [ReadOp.header] ∧
    ∃ e, (read_run (if msg.header.size > 0 then 2 else 1) peer
        (wire_bytes msg ++ rest)).1.m_qMessagesIn.items = peer.m_qMessagesIn.items ++ [e] ∧
      e.msg.header = msg.header ∧ (msg.body ≠ [] → e.msg.body = msg.body) := by
  have hrt := header_of_bytes_header_bytes msg.header hid hlt
  have hlen : HEADER_SIZE ≤ (wire_bytes msg ++ rest).length := by
    rw [List.length_append, length_wire_bytes]
    omega
  have s1 := read_step_header peer [] (wire_bytes msg ++ rest) hp hlen
  rw [wire_take_header, wire_drop_header] at s1
  by_cases hz : msg.header.size > 0
  · have hne : msg.body ≠ [] := by
      intro h
      rw [h] at hinv
      simp at hinv
      omega
    rw [ReadHeader_done_body _ _ (by rw [hrt]; exact hz), hrt] at s1
    have hbl : (resize peer.m_msgTemporaryIn.body msg.header.size).length = msg.body.length := by
      rw [length_resize, hinv]
    have s2 := read_step_body
      (ReadBody { peer with
          pendingReads := [],
          m_msgTemporaryIn :=
            { header := msg.header, body := resize peer.m_msgTemporaryIn.body msg.header.size } })
      [] (msg.body ++ rest) rfl
      (by
        show (resize peer.m_msgTemporaryIn.body msg.header.size).length ≤ _
        rw [hbl, List.length_append]
        omega)
    have hb2 : (ReadBody { peer with
          pendingReads := [],
          m_msgTemporaryIn :=
            { header := msg.header,
              body := resize peer.m_msgTemporaryIn.body msg.header.size } }).m_msgTemporaryIn.body
        = resize peer.m_msgTemporaryIn.body msg.header.size := rfl
    rw [hb2, hbl, List.take_left, List.drop_left, ReadBody_done_ok] at s2
    rw [if_pos hz, read_run_two _ _ _ _ s1 s2]
    refine ⟨rfl, ?_, ?_⟩
    · rw [AddToIncomingMessageQueue_pendingReads]
      rfl
    · refine ⟨_, AddToIncomingMessageQueue_items _, rfl, fun _ => ?_⟩
      exact memcpy_to_full _ _ hbl
  · have hb : msg.body = [] := by
      have : msg.body.length = 0 := by omega
      exact List.length_eq_zero.mp this
    rw [ReadHeader_done_empty _ _ (by rw [hrt]; omega), hrt, hb, List.nil_append] at s1
    rw [if_neg hz, read_run_one _ _ _ s1]
    refine ⟨rfl, ?_, ?_⟩
    · rw [AddToIncomingMessageQueue_pendingReads]
      rfl
    · exact ⟨_, AddToIncomingMessageQueue_items _, rfl, fun h => absurd hb h⟩

/-- C9 as stated fails: a message with `header.size = 0` and a 1-byte body (as
the read path enqueues it when an empty message follows a 1-byte one) handed
to `Send` makes the write path emit the header and then 1 body byte, 9 bytes
in all and not `sizeof(header) + header.size = 8`: `WriteHeader`'s handler and
`WriteBody` go by `body.size()`, not by `header.size`. -/
theorem C9_counterexample :
    (write_drain 2 (Send { header := { id := 2, size := 0 }, body := [7] }
        (connection.create 1 owner.server))).wire = [2, 0, 0, 0, 0, 0, 0, 0, 7] ∧
    (write_drain 2 (Send { header := { id := 2, size := 0 }, body := [7] }
        (connection.create 1 owner.server))).pendingWrites = [] ∧
    (write_drain 2 (Send { header := { id := 2, size := 0 }, body := [7] }
        (connection.create 1 owner.server))).wire.length ≠ HEADER_SIZE + 0 := by
  decide

/-- C9, amended: for every message handed to `Send` on a connection whose
write side is consistent (as it is in every state reached without a failed
write), the write path emits, after the bytes of the messages queued before
it, the header first and then exactly `body.size()` body bytes,
`sizeof(header) + body.size()` bytes in all for that message. When
`header.size` equals the body length (kind and size being 32-bit values) that
is `sizeof(header) + header.size` bytes, and the peer's read path, waiting for
a header, takes exactly these bytes off its stream for the one entry it
pushes. -/
theorem C9_wire_length (c0 peer : connection) (msg : message) (rest : List Byte)
    (hinv : WriteInv c0) :
    (write_drain (2 * (Send msg c0).m_qMessagesOut.items.length) (Send msg c0)).wire
        = c0.wire ++ write_rest c0 ++ (header_bytes msg.header ++ msg.body) ∧
    (write_drain (2 * (Send msg c0).m_qMessagesOut.items.length) (Send msg c0)).pendingWrites
        = [] ∧
    (header_bytes msg.header ++ msg.body).length = HEADER_SIZE + msg.body.length ∧
    (msg.header.size = msg.body.length → msg.header.id < 2 ^ 32 → msg.header.size < 2 ^ 32 →
      peer.pendingReads = [ReadOp.header] →
      (header_bytes msg.header ++ msg.body).length = HEADER_SIZE + msg.header.size ∧
      (read_run (if msg.header.size > 0 then 2 else 1) peer
          (header_bytes msg.header ++ msg.body ++ rest)).2 = rest ∧
      ∃ e, (read_run (if msg.header.size > 0 then 2 else 1) peer
          (header_bytes msg.header ++ msg.body ++ rest)).1.m_qMessagesIn.items
            = peer.m_qMessagesIn.items ++ [e] ∧ e.msg.header = msg.header) := by
  obtain ⟨hi, hw⟩ := Send_inv msg c0 hinv
  obtain ⟨d1, _, d3⟩ := write_drain_done _ (Send msg c0) hi (write_todo_le _)
  have hl := length_wire_bytes msg
  unfold wire_bytes at hl hw
  refine ⟨by rw [d3, hw], d1, hl, ?_⟩
  intro hs hid hlt hpr
  obtain ⟨r1, _, e, r3, r4, _⟩ := read_one_message peer msg rest hpr hid hlt hs
  unfold wire_bytes at r1 r3
  exact ⟨by rw [hl, hs], r1, e, r3, r4⟩

/-- C9, amended, at a concrete message with a 2-byte body, handed to `Send`
while the header write of an earlier message is outstanding, and a fresh peer
waiting for a header. -/
theorem C9_wire_length_witness :
    (write_drain
        (2 * (Send { header := { id := 3, size := 2 }, body := [7, 9] }
          (Send { header := { id := 1, size := 1 }, body := [5] }
            (connection.create 1 owner.server))).m_qMessagesOut.items.length)
        (Send { header := { id := 3, size := 2 }, body := [7, 9] }
          (Send { header := { id := 1, size := 1 }, body := [5] }
            (connection.create 1 owner.server)))).wire =
      (Send { header := { id := 1, size := 1 }, body := [5] }
          (connection.create 1 owner.server)).wire ++
        write_rest (Send { header := { id := 1, size := 1 }, body := [5] }
          (connection.create 1 owner.server)) ++
        (header_bytes { id := 3, size := 2 } ++ [7, 9]) ∧
    (read_run 2 (ConnectToClient 10000 (connection.create 2 owner.server))
        (header_bytes { id := 3, size := 2 } ++ [7, 9] ++ [1, 1, 1])).2 = [1, 1, 1] :=
  ⟨(C9_wire_length
      (Send { header := { id := 1, size := 1 }, body := [5] } (connection.create 1 owner.server))
      (ConnectToClient 10000 (connection.create 2 owner.server))
      { header := { id := 3, size := 2 }, body := [7, 9] } [1, 1, 1] (by decide)).1,
   ((C9_wire_length
      (Send { header := { id := 1, size := 1 }, body := [5] } (connection.create 1 owner.server))
      (ConnectToClient 10000 (connection.create 2 owner.server))
      { header := { id := 3, size := 2 }, body := [7, 9] } [1, 1, 1] (by decide)).2.2.2
      rfl (by decide) (by decide) rfl).2.1⟩

/-! ## The write side under failures -/

theorem read_complete_frame (ec : Bool) (bs : List Byte) (c : connection) :
    (read_complete ec bs c).pendingWrites = c.pendingWrites ∧
    (read_complete ec bs c).m_qMessagesOut = c.m_qMessagesOut ∧
    (read_complete ec bs c).wire = c.wire := by
  unfold read_complete
  split
  · exact ⟨rfl, rfl, rfl⟩
  · unfold ReadHeader_done AddToIncomingMessageQueue ReadBody ReadHeader
    cases ec <;> simp only [Bool.not_false, Bool.not_true, if_true] <;>
      (repeat' split) <;> exact ⟨rfl, rfl, rfl⟩
  · unfold ReadBody_done AddToIncomingMessageQueue ReadHeader
    cases ec <;> simp only [Bool.not_false, Bool.not_true, if_true] <;>
      (repeat' split) <;> exact ⟨rfl, rfl, rfl⟩

theorem Send_head (msg : message) (c : connection) (h : WriteHead c) :
    WriteHead (Send msg c) := by
  obtain ⟨self, own, id, so, ⟨qo⟩, qi, tmp, pr, pw, w⟩ := c
  rcases h with ⟨h1, h2⟩ | ⟨m, rest, w0, h1, h2, h3⟩ | ⟨m, rest, w0, h1, h2, h3⟩
  · simp only at h1 h2
    subst h1 h2
    refine Or.inr (Or.inl ⟨msg, [], w, ?_, ?_, ?_⟩) <;>
      simp [Send, WriteHeader, tsqueue.empty, tsqueue.push_back, tsqueue.front]
  · simp only at h1 h2 h3
    subst h1 h2 h3
    refine Or.inr (Or.inl ⟨m, rest ++ [msg], w0, ?_, ?_, ?_⟩) <;>
      simp [Send, WriteHeader, tsqueue.empty, tsqueue.push_back, tsqueue.front]
  · simp only at h1 h2 h3
    subst h1 h2 h3
    refine Or.inr (Or.inr ⟨m, rest ++ [msg], w0, ?_, ?_, ?_⟩) <;>
      simp [Send, WriteHeader, tsqueue.empty, tsqueue.push_back, tsqueue.front]

theorem Send_failed (msg : message) (c : connection) (h : WriteFailed c) :
    WriteFailed (Send msg c) ∧ (Send msg c).wire = c.wire ∧
      (Send msg c).m_qMessagesOut.items = c.m_qMessagesOut.items ++ [msg] ∧
      (Send msg c).socketOpen = c.socketOpen := by
  obtain ⟨self, own, id, so, ⟨qo⟩, qi, tmp, pr, pw, w⟩ := c
  obtain ⟨h1, h2⟩ := h
  simp only at h1 h2
  subst h1
  cases qo with
  | nil => exact absurd rfl h2
  | cons m rest =>
    simp [Send, WriteFailed, tsqueue.empty, tsqueue.push_back]

theorem write_complete_failed (ec : Bool) (c : connection) (h : WriteFailed c) :
    write_complete ec c = c := by
  simp [write_complete, h.1]

theorem write_complete_head (c : connection) (h : WriteHead c) :
    WriteHead (write_complete false c) := by
  obtain ⟨self, own, id, so, ⟨qo⟩, qi, tmp, pr, pw, w⟩ := c
  rcases h with ⟨h1, h2⟩ | ⟨m, rest, w0, h1, h2, h3⟩ | ⟨m, rest, w0, h1, h2, h3⟩
  · simp only at h1 h2
    subst h1 h2
    exact Or.inl ⟨rfl, rfl⟩
  · simp only at h1 h2 h3
    subst h1 h2 h3
    by_cases hb : m.body = []
    · cases rest with
      | nil =>
        refine Or.inl ⟨?_, ?_⟩ <;>
          simp [write_complete, WriteHeader_done, tsqueue.empty, tsqueue.pop_front,
            tsqueue.front, hb]
      | cons m2 rest2 =>
        refine Or.inr (Or.inl ⟨m2, rest2, w0 ++ header_bytes m.header, ?_, ?_, ?_⟩) <;>
          simp [write_complete, WriteHeader_done, WriteHeader, tsqueue.empty, tsqueue.pop_front,
            tsqueue.front, hb]
    · have hpos : 0 < m.body.length := List.length_pos.mpr hb
      refine Or.inr (Or.inr ⟨m, rest, w0, ?_, ?_, ?_⟩) <;>
        simp [write_complete, WriteHeader_done, WriteBody, tsqueue.front, hpos]
  · simp only at h1 h2 h3
    subst h1 h2 h3
    cases rest with
    | nil =>
      refine Or.inl ⟨?_, ?_⟩ <;>
        simp [write_complete, WriteBody_done, tsqueue.empty, tsqueue.pop_front]
    | cons m2 rest2 =>
      refine Or.inr (Or.inl ⟨m2, rest2, w0 ++ header_bytes m.header ++ m.body, ?_, ?_, ?_⟩) <;>
        simp [write_complete, WriteBody_done, WriteHeader, tsqueue.empty, tsqueue.pop_front,
          tsqueue.front]

/-- A write completion that reports an error, on a consistent write side with
a write outstanding: the socket is closed, nothing is outstanding any more,
the queue and the bytes handed over are as before. -/
theorem write_complete_error (c : connection) (h : WriteHead c) (hp : c.pendingWrites ≠ []) :
    WriteFailed (write_complete true c) ∧ (write_complete true c).socketOpen = false ∧
      (write_complete true c).wire = c.wire ∧
      (write_complete true c).m_qMessagesOut = c.m_qMessagesOut := by
  obtain ⟨self, own, id, so, ⟨qo⟩, qi, tmp, pr, pw, w⟩ := c
  rcases h with ⟨h1, h2⟩ | ⟨m, rest, w0, h1, h2, h3⟩ | ⟨m, rest, w0, h1, h2, h3⟩
  · exact absurd h1 hp
  · simp only at h1 h2 h3
    subst h1 h2 h3
    simp [write_complete, WriteHeader_done, WriteFailed]
  · simp only at h1 h2 h3
    subst h1 h2 h3
    simp [write_complete, WriteBody_done, WriteFailed]

theorem WriteHead_or_failed_length (c : connection) (h : WriteHead c ∨ WriteFailed c) :
    c.pendingWrites.length ≤ 1 := by
  rcases h with (⟨h1, _⟩ | ⟨_, _, _, h1, _, _⟩ | ⟨_, _, _, h1, _, _⟩) | ⟨h1, _⟩ <;>
    simp [h1]

theorem WriteHead_of_frame (c d : connection) (h : WriteHead c)
    (h1 : d.pendingWrites = c.pendingWrites) (h2 : d.m_qMessagesOut = c.m_qMessagesOut)
    (h3 : d.wire = c.wire) : WriteHead d := by
  unfold WriteHead
  rw [h1, h2, h3]
  exact h

theorem WriteFailed_of_frame (c d : connection) (h : WriteFailed c)
    (h1 : d.pendingWrites = c.pendingWrites) (h2 : d.m_qMessagesOut = c.m_qMessagesOut) :
    WriteFailed d := by
  unfold WriteFailed
  rw [h1, h2]
  exact h

/-- Every event keeps the write side consistent or failed; consistent as long
as the event is not a failing write completion. -/
theorem conn_step_write (c : connection) (e : ConnEvent) (h : WriteHead c ∨ WriteFailed c) :
    (WriteHead (conn_step c e) ∨ WriteFailed (conn_step c e)) ∧
      (WriteHead c → e ≠ ConnEvent.write_done true → WriteHead (conn_step c e)) := by
  cases e with
  | send msg =>
    refine ⟨?_, fun hh _ => Send_head msg c hh⟩
    rcases h with hh | hf
    · exact Or.inl (Send_head msg c hh)
    · exact Or.inr (Send_failed msg c hf).1
  | write_done ec =>
    cases ec with
    | false =>
      refine ⟨?_, fun hh _ => write_complete_head c hh⟩
      rcases h with hh | hf
      · exact Or.inl (write_complete_head c hh)
      · exact Or.inr (by simp only [conn_step]; rw [write_complete_failed false c hf]; exact hf)
    | true =>
      refine ⟨?_, fun _ hne => absurd rfl hne⟩
      rcases h with hh | hf
      · by_cases hp : c.pendingWrites = []
        · have : write_complete true c = c := by simp [write_complete, hp]
          exact Or.inl (by simp only [conn_step]; rw [this]; exact hh)
        · exact Or.inr (write_complete_error c hh hp).1
      · exact Or.inr (by simp only [conn_step]; rw [write_complete_failed true c hf]; exact hf)
  | read_done ec bs =>
    obtain ⟨f1, f2, f3⟩ := read_complete_frame ec bs c
    refine ⟨?_, fun hh _ => WriteHead_of_frame c _ hh f1 f2 f3⟩
    rcases h with hh | hf
    · exact Or.inl (WriteHead_of_frame c _ hh f1 f2 f3)
    · exact Or.inr (WriteFailed_of_frame c _ hf f1 f2)

theorem conn_run_write (evs : List ConnEvent) (c : connection)
    (h : WriteHead c ∨ WriteFailed c) :
    (WriteHead (conn_run evs c) ∨ WriteFailed (conn_run evs c)) ∧
      (WriteHead c → no_write_failure evs = true → WriteHead (conn_run evs c)) := by
  induction evs generalizing c with
  | nil => exact ⟨h, fun hh _ => hh⟩
  | cons e es ih =>
    obtain ⟨s1, s2⟩ := conn_step_write c e h
    obtain ⟨r1, r2⟩ := ih (conn_step c e) s1
    refine ⟨r1, fun hh hnf => ?_⟩
    have hne : e ≠ ConnEvent.write_done true := by
      intro he
      subst he
      simp [no_write_failure] at hnf
    have hnf2 : no_write_failure es = true := by
      cases e with
      | send msg => simpa [no_write_failure] using hnf
      | write_done ec =>
        cases ec with
        | false => simpa [no_write_failure] using hnf
        | true => exact absurd rfl hne
      | read_done ec bs => simpa [no_write_failure] using hnf
    exact r2 (s2 hh hne) hnf2

/-- C11: single outstanding write. In every state a connection reaches from
one with an empty outgoing queue and no write outstanding, by posted `Send`s
and write completions that succeed or fail (read completions may run in
between), at most one asynchronous write is outstanding. As long as no write
has failed, a write is outstanding exactly when the outgoing queue is not
empty, and it is the write of the header or of the body of the front message:
the bytes handed to the socket end with that header, or with that header and
body. -/
theorem C11_single_outstanding_write (c0 : connection) (evs : List ConnEvent)
    (hq : c0.m_qMessagesOut.items = []) (hp : c0.pendingWrites = []) :
    (conn_run evs c0).pendingWrites.length ≤ 1 ∧
    (no_write_failure evs = true →
      ((conn_run evs c0).pendingWrites ≠ [] ↔ (conn_run evs c0).m_qMessagesOut.items ≠ []) ∧
      ∀ m rest, (conn_run evs c0).m_qMessagesOut.items = m :: rest →
        ((conn_run evs c0).pendingWrites = [WriteOp.header] ∧
            ∃ w, (conn_run evs c0).wire = w ++ header_bytes m.header) ∨
        ((conn_run evs c0).pendingWrites = [WriteOp.body] ∧
            ∃ w, (conn_run evs c0).wire = w ++ header_bytes m.header ++ m.body)) := by
  have h0 : WriteHead c0 := Or.inl ⟨hp, hq⟩
  obtain ⟨r1, r2⟩ := conn_run_write evs c0 (Or.inl h0)
  refine ⟨WriteHead_or_failed_length _ r1, fun hnf => ?_⟩
  have hh := r2 h0 hnf
  rcases hh with ⟨h1, h2⟩ | ⟨m, rest, w, h1, h2, h3⟩ | ⟨m, rest, w, h1, h2, h3⟩
  · refine ⟨by simp [h1, h2], fun m rest hm => ?_⟩
    rw [h2] at hm
    cases hm
  · refine ⟨by simp [h1, h2], fun m2 rest2 hm => ?_⟩
    rw [h2] at hm
    cases hm
    exact Or.inl ⟨h1, w, h3⟩
  · refine ⟨by simp [h1, h2], fun m2 rest2 hm => ?_⟩
    rw [h2] at hm
    cases hm
    exact Or.inr ⟨h1, w, h3⟩

/-- C11 at a concrete run on a fresh connection: two sends, then the header
write of the first message completes. -/
theorem C11_single_outstanding_write_witness :
    (conn_run
        [ConnEvent.send { header := { id := 3, size := 1 }, body := [7] },
         ConnEvent.send { header := { id := 2, size := 0 }, body := [] },
         ConnEvent.write_done false]
        (connection.create 1 owner.server)).pendingWrites.length ≤ 1 ∧
    ((conn_run
        [ConnEvent.send { header := { id := 3, size := 1 }, body := [7] },
         ConnEvent.send { header := { id := 2, size := 0 }, body := [] },
         ConnEvent.write_done false]
        (connection.create 1 owner.server)).pendingWrites ≠ [] ↔
     (conn_run
        [ConnEvent.send { header := { id := 3, size := 1 }, body := [7] },
         ConnEvent.send { header := { id := 2, size := 0 }, body := [] },
         ConnEvent.write_done false]
        (connection.create 1 owner.server)).m_qMessagesOut.items ≠ []) :=
  ⟨(C11_single_outstanding_write (connection.create 1 owner.server)
      [ConnEvent.send { header := { id := 3, size := 1 }, body := [7] },
       ConnEvent.send { header := { id := 2, size := 0 }, body := [] },
       ConnEvent.write_done false] rfl rfl).1,
   ((C11_single_outstanding_write (connection.create 1 owner.server)
      [ConnEvent.send { header := { id := 3, size := 1 }, body := [7] },
       ConnEvent.send { header := { id := 2, size := 0 }, body := [] },
       ConnEvent.write_done false] rfl rfl).2 rfl).1⟩

/-! ## I/O errors -/

theorem Send_frame (msg : message) (c : connection) :
    (Send msg c).pendingReads = c.pendingReads ∧ (Send msg c).m_qMessagesIn = c.m_qMessagesIn ∧
      (Send msg c).socketOpen = c.socketOpen := by
  unfold Send WriteHeader
  simp only
  (repeat' split) <;> exact ⟨rfl, rfl, rfl⟩

theorem write_complete_frame (ec : Bool) (c : connection) :
    (write_complete ec c).pendingReads = c.pendingReads ∧
      (write_complete ec c).m_qMessagesIn = c.m_qMessagesIn ∧
      (c.socketOpen = false → (write_complete ec c).socketOpen = false) := by
  unfold write_complete
  split
  · exact ⟨rfl, rfl, id⟩
  · unfold WriteHeader_done WriteBody WriteHeader
    cases ec <;> simp only [Bool.not_false, Bool.not_true, if_true] <;>
      (repeat' split) <;> first | exact ⟨rfl, rfl, id⟩ | exact ⟨rfl, rfl, fun _ => rfl⟩
  · unfold WriteBody_done WriteHeader
    cases ec <;> simp only [Bool.not_false, Bool.not_true, if_true] <;>
      (repeat' split) <;> first | exact ⟨rfl, rfl, id⟩ | exact ⟨rfl, rfl, fun _ => rfl⟩

theorem read_complete_closed (ec : Bool) (bs : List Byte) (c : connection)
    (h : c.socketOpen = false) : (read_complete ec bs c).socketOpen = false := by
  unfold read_complete
  split
  · exact h
  · unfold ReadHeader_done AddToIncomingMessageQueue ReadBody ReadHeader
    cases ec <;> simp only [Bool.not_false, Bool.not_true, if_true] <;>
      (repeat' split) <;> first | exact h | rfl
  · unfold ReadBody_done AddToIncomingMessageQueue ReadHeader
    cases ec <;> simp only [Bool.not_false, Bool.not_true, if_true] <;>
      (repeat' split) <;> first | exact h | rfl

theorem read_complete_length (ec : Bool) (bs : List Byte) (c : connection)
    (h : c.pendingReads.length ≤ 1) : (read_complete ec bs c).pendingReads.length ≤ 1 := by
  obtain ⟨self, own, id, so, qo, qi, tmp, pr, pw, w⟩ := c
  simp only at h
  cases pr with
  | nil => simp [read_complete]
  | cons op ops =>
    have hops : ops = [] := by
      cases ops with
      | nil => rfl
      | cons _ _ => simp at h
    subst hops
    cases op <;> cases ec <;>
      simp only [read_complete, ReadHeader_done, ReadBody_done, AddToIncomingMessageQueue,
        ReadBody, ReadHeader, Bool.not_false, Bool.not_true, if_true] <;>
      (repeat' split) <;> simp

/-- A read completion that reports an error, with one read outstanding: the
socket is closed, no read is outstanding any more, the incoming queue is as
before. -/
theorem read_complete_error (bs : List Byte) (c : connection)
    (h : c.pendingReads.length ≤ 1) (hp : c.pendingReads ≠ []) :
    (read_complete true bs c).socketOpen = false ∧ (read_complete true bs c).pendingReads = [] ∧
      (read_complete true bs c).m_qMessagesIn = c.m_qMessagesIn := by
  obtain ⟨self, own, id, so, qo, qi, tmp, pr, pw, w⟩ := c
  simp only at h hp
  cases pr with
  | nil => exact absurd rfl hp
  | cons op ops =>
    have hops : ops = [] := by
      cases ops with
      | nil => rfl
      | cons _ _ => simp at h
    subst hops
    cases op <;> simp [read_complete, ReadHeader_done, ReadBody_done]

theorem conn_step_reads (c : connection) (e : ConnEvent) :
    (c.pendingReads.length ≤ 1 → (conn_step c e).pendingReads.length ≤ 1) ∧
    (c.socketOpen = false → (conn_step c e).socketOpen = false) ∧
    (c.pendingReads = [] →
      (conn_step c e).pendingReads = [] ∧ (conn_step c e).m_qMessagesIn = c.m_qMessagesIn) := by
  cases e with
  | send msg =>
    obtain ⟨f1, f2, f3⟩ := Send_frame msg c
    simp only [conn_step]
    rw [f1, f2, f3]
    exact ⟨id, id, fun h => ⟨h, rfl⟩⟩
  | write_done ec =>
    obtain ⟨f1, f2, f3⟩ := write_complete_frame ec c
    simp only [conn_step]
    rw [f1, f2]
    exact ⟨id, f3, fun h => ⟨h, rfl⟩⟩
  | read_done ec bs =>
    simp only [conn_step]
    refine ⟨read_complete_length ec bs c, read_complete_closed ec bs c, fun h => ?_⟩
    have : read_complete ec bs c = c := by simp [read_complete, h]
    rw [this]
    exact ⟨h, rfl⟩

theorem conn_run_cons (e : ConnEvent) (es : List ConnEvent) (c : connection) :
    conn_run (e :: es) c = conn_run es (conn_step c e) := rfl

theorem conn_run_reads_length (evs : List ConnEvent) (c : connection)
    (h : c.pendingReads.length ≤ 1) : (conn_run evs c).pendingReads.length ≤ 1 := by
  induction evs generalizing c with
  | nil => exact h
  | cons e es ih => exact ih _ ((conn_step_reads c e).1 h)

theorem conn_run_closed (evs : List ConnEvent) (c : connection) (h : c.socketOpen = false) :
    (conn_run evs c).socketOpen = false := by
  induction evs generalizing c with
  | nil => exact h
  | cons e es ih => exact ih _ ((conn_step_reads c e).2.1 h)

/-- With no read outstanding, no event issues a read or pushes an entry. -/
theorem conn_run_reads_dead (evs : List ConnEvent) (c : connection) (h : c.pendingReads = []) :
    (conn_run evs c).pendingReads = [] ∧ (conn_run evs c).m_qMessagesIn = c.m_qMessagesIn := by
  induction evs generalizing c with
  | nil => exact ⟨h, rfl⟩
  | cons e es ih =>
    obtain ⟨s1, s2⟩ := (conn_step_reads c e).2.2 h
    obtain ⟨r1, r2⟩ := ih _ s1
    rw [conn_run_cons]
    exact ⟨r1, by rw [r2, s2]⟩

/-- After a failed write, no event issues a write: nothing is outstanding,
the bytes handed over stay as they are, and the queue only grows by what is
passed to `Send`. -/
theorem conn_run_writes_dead (evs : List ConnEvent) (c : connection) (h : WriteFailed c) :
    (conn_run evs c).pendingWrites = [] ∧ (conn_run evs c).wire = c.wire ∧
      (conn_run evs c).m_qMessagesOut.items = c.m_qMessagesOut.items ++ conn_sent evs := by
  induction evs generalizing c with
  | nil => exact ⟨h.1, rfl, by simp [conn_run, conn_sent]⟩
  | cons e es ih =>
    cases e with
    | send msg =>
      obtain ⟨s1, s2, s3, _⟩ := Send_failed msg c h
      obtain ⟨r1, r2, r3⟩ := ih _ s1
      rw [conn_run_cons]
      simp only [conn_step]
      exact ⟨r1, by rw [r2, s2], by rw [r3, s3]; simp [conn_sent]⟩
    | write_done ec =>
      have hs : conn_step c (ConnEvent.write_done ec) = c := write_complete_failed ec c h
      simp only [conn_run, hs, conn_sent]
      exact ih c h
    | read_done ec bs =>
      obtain ⟨f1, f2, f3⟩ := read_complete_frame ec bs c
      obtain ⟨r1, r2, r3⟩ := ih _ (WriteFailed_of_frame c _ h f1 f2)
      rw [conn_run_cons]
      simp only [conn_step]
      exact ⟨r1, by rw [r2]; exact f3, by rw [r3, f2]; simp only [conn_sent]⟩


/-- C12: I/O errors stop a connection's state machine for good. Take any
state a connection reaches from one with an empty outgoing queue, no write
outstanding and at most one read outstanding. If the outstanding read then
completes with an error, the socket is closed, and after any further events no
read is outstanding, the incoming queue is as it was and the socket is still
closed. If the outstanding write completes with an error, the socket is
closed, and after any further events no write is outstanding, no byte has been
handed to the socket, the socket is still closed, and the outgoing queue holds
the messages that were queued followed by those passed to `Send` since. -/
theorem C12_io_error_stops_machine (c0 : connection) (pre post : List ConnEvent)
    (bs : List Byte) (hq : c0.m_qMessagesOut.items = []) (hp : c0.pendingWrites = [])
    (hr : c0.pendingReads.length ≤ 1) :
    ((conn_run pre c0).pendingReads ≠ [] →
      (read_complete true bs (conn_run pre c0)).socketOpen = false ∧
      (conn_run post (read_complete true bs (conn_run pre c0))).socketOpen = false ∧
      (conn_run post (read_complete true bs (conn_run pre c0))).pendingReads = [] ∧
      (conn_run post (read_complete true bs (conn_run pre c0))).m_qMessagesIn
        = (conn_run pre c0).m_qMessagesIn) ∧
    ((conn_run pre c0).pendingWrites ≠ [] →
      (write_complete true (conn_run pre c0)).socketOpen = false ∧
      (conn_run post (write_complete true (conn_run pre c0))).socketOpen = false ∧
      (conn_run post (write_complete true (conn_run pre c0))).pendingWrites = [] ∧
      (conn_run post (write_complete true (conn_run pre c0))).wire = (conn_run pre c0).wire ∧
      (conn_run post (write_complete true (conn_run pre c0))).m_qMessagesOut.items
        = (conn_run pre c0).m_qMessagesOut.items ++ conn_sent post) := by
  constructor
  · intro hne
    obtain ⟨e1, e2, e3⟩ :=
      read_complete_error bs (conn_run pre c0) (conn_run_reads_length pre c0 hr) hne
    obtain ⟨d1, d2⟩ := conn_run_reads_dead post _ e2
    exact ⟨e1, conn_run_closed post _ e1, d1, by rw [d2, e3]⟩
  · intro hne
    have hinv := (conn_run_write pre c0 (Or.inl (Or.inl ⟨hp, hq⟩))).1
    have hh : WriteHead (conn_run pre c0) := by
      rcases hinv with hh | hf
      · exact hh
      · exact absurd hf.1 hne
    obtain ⟨e1, e2, e3, e4⟩ := write_complete_error (conn_run pre c0) hh hne
    obtain ⟨d1, d2, d3⟩ := conn_run_writes_dead post _ e1
    exact ⟨e2, conn_run_closed post _ e2, d1, by rw [d2, e3], by rw [d3, e4]⟩

/-- C12 at a concrete run: a server-side connection waiting for a header has
a message queued; the read fails, later events change nothing on the read
side; the header write fails, a later `Send` and completion issue no write. -/
theorem C12_io_error_stops_machine_witness :
    (conn_run [ConnEvent.read_done false [2, 0, 0, 0, 0, 0, 0, 0], ConnEvent.write_done false]
        (read_complete true []
          (conn_run [ConnEvent.send { header := { id := 3, size := 1 }, body := [7] }]
            (ConnectToClient 10000 (connection.create 1 owner.server))))).pendingReads = [] ∧
    (conn_run [ConnEvent.send { header := { id := 2, size := 0 }, body := [] },
               ConnEvent.write_done false]
        (write_complete true
          (conn_run [ConnEvent.send { header := { id := 3, size := 1 }, body := [7] }]
            (ConnectToClient 10000 (connection.create 1 owner.server))))).wire
      = (conn_run [ConnEvent.send { header := { id := 3, size := 1 }, body := [7] }]
            (ConnectToClient 10000 (connection.create 1 owner.server))).wire :=
  ⟨((C12_io_error_stops_machine (ConnectToClient 10000 (connection.create 1 owner.server))
      [ConnEvent.send { header := { id := 3, size := 1 }, body := [7] }]
      [ConnEvent.read_done false [2, 0, 0, 0, 0, 0, 0, 0], ConnEvent.write_done false]
      [] rfl rfl (by decide)).1 (by decide)).2.2.1,
   ((C12_io_error_stops_machine (ConnectToClient 10000 (connection.create 1 owner.server))
      [ConnEvent.send { header := { id := 3, size := 1 }, body := [7] }]
      [ConnEvent.send { header := { id := 2, size := 0 }, body := [] },
       ConnEvent.write_done false]
      [] rfl rfl (by decide)).2 (by decide)).2.2.2.1⟩


/-! ## Connection IDs -/

theorem ConnectToClient_create (uid : Nat) (addr : Ptr) :
    (ConnectToClient uid (connection.create addr owner.server)).id = uid ∧
      (ConnectToClient uid (connection.create addr owner.server)).self = addr := by
  simp [ConnectToClient, connection.create, ReadHeader]

theorem WaitForClientConnection_done_admit (addr : Ptr) (s : server_interface) :
    WaitForClientConnection_done (AcceptResult.socket addr true) s =
      ({ s with m_deqConnections := s.m_deqConnections ++ [some addr],
                nIDCounter := (s.nIDCounter + 1) % UINT32_MOD },
       some (ConnectToClient s.nIDCounter (connection.create addr owner.server))) := by
  simp [WaitForClientConnection_done]

theorem WaitForClientConnection_done_reject (addr : Ptr) (s : server_interface) :
    WaitForClientConnection_done (AcceptResult.socket addr false) s = (s, none) := by
  simp [WaitForClientConnection_done]

theorem WaitForClientConnection_done_error (s : server_interface) :
    WaitForClientConnection_done AcceptResult.error s = (s, none) := rfl

theorem accept_run_cons (r : AcceptResult) (rs : List AcceptResult) (s : server_interface) :
    accept_run (r :: rs) s =
      ((accept_run rs (WaitForClientConnection_done r s).1).1,
       (WaitForClientConnection_done r s).2.toList ++
         (accept_run rs (WaitForClientConnection_done r s).1).2) := rfl

theorem range_map_shift (n k : Nat) (hn : n < UINT32_MOD) :
    (List.range (k + 1)).map (fun j => (n + j) % UINT32_MOD) =
      n :: (List.range k).map (fun j => ((n + 1) % UINT32_MOD + j) % UINT32_MOD) := by
  rw [List.range_succ_eq_map, List.map_cons, List.map_map]
  have h0 : (n + 0) % UINT32_MOD = n := by
    rw [Nat.add_zero, Nat.mod_eq_of_lt hn]
  rw [h0]
  congr 1
  apply List.map_congr_left
  intro j _
  simp only [Function.comp, UINT32_MOD]
  omega

/-- What a sequence of accept completions does to the server: the IDs of the
admitted connections, the counter, the container, and the admitted objects. -/
theorem accept_run_spec (evs : List AcceptResult) (s : server_interface)
    (hn : s.nIDCounter < UINT32_MOD) :
    (accept_run evs s).2.map connection.id =
        (List.range (admitted evs)).map (fun j => (s.nIDCounter + j) % UINT32_MOD) ∧
    (accept_run evs s).1.nIDCounter = (s.nIDCounter + admitted evs) % UINT32_MOD ∧
    (accept_run evs s).1.m_deqConnections =
        s.m_deqConnections ++ (admitted_addrs evs).map some ∧
    (accept_run evs s).2.map connection.self = admitted_addrs evs := by
  induction evs generalizing s with
  | nil =>
    simp [accept_run, admitted, admitted_addrs, Nat.mod_eq_of_lt hn]
  | cons r rs ih =>
    cases r with
    | error =>
      rw [accept_run_cons, WaitForClientConnection_done_error]
      simpa [admitted, admitted_addrs] using ih s hn
    | socket addr allow =>
      cases allow with
      | false =>
        rw [accept_run_cons, WaitForClientConnection_done_reject]
        simpa [admitted, admitted_addrs] using ih s hn
      | true =>
        rw [accept_run_cons, WaitForClientConnection_done_admit]
        have hlt : (s.nIDCounter + 1) % UINT32_MOD < UINT32_MOD :=
          Nat.mod_lt _ (by decide)
        obtain ⟨i1, i2, i3, i4⟩ := ih
          { s with m_deqConnections := s.m_deqConnections ++ [some addr],
                   nIDCounter := (s.nIDCounter + 1) % UINT32_MOD } hlt
        obtain ⟨c1, c2⟩ := ConnectToClient_create s.nIDCounter addr
        refine ⟨?_, ?_, ?_, ?_⟩
        · simp only [admitted, Option.toList, List.singleton_append, List.map_cons, c1, i1]
          rw [range_map_shift _ _ hn]
        · simp only [admitted]
          rw [i2]
          simp only [UINT32_MOD]
          omega
        · simp only [admitted_addrs, i3, List.map_cons, List.append_assoc, List.singleton_append]
        · simp only [admitted_addrs, Option.toList, List.singleton_append, List.map_cons, c2, i4]

theorem admitted_map_admit (l : List Nat) :
    admitted (l.map (fun a => AcceptResult.socket a true)) = l.length := by
  induction l with
  | nil => rfl
  | cons a l ih => simp [admitted, ih]

theorem admitted_acceptAll (n : Nat) : admitted (acceptAll n) = n := by
  rw [acceptAll, admitted_map_admit, List.length_range]

/-- The ID the last of `n + 1` admitted connections receives. -/
theorem accept_run_acceptAll_last (n : Nat) (s : server_interface)
    (hn : s.nIDCounter < UINT32_MOD) :
    ((accept_run (acceptAll (n + 1)) s).2.map connection.id).getLast? =
      some ((s.nIDCounter + n) % UINT32_MOD) := by
  rw [(accept_run_spec _ s hn).1, admitted_acceptAll, List.range_succ, List.map_append,
    List.map_cons, List.map_nil, List.getLast?_concat]

theorem accept_run_acceptAll_length (n : Nat) (s : server_interface)
    (hn : s.nIDCounter < UINT32_MOD) :
    ((accept_run (acceptAll n) s).2.map connection.id).length = n := by
  rw [(accept_run_spec _ s hn).1, admitted_acceptAll, List.length_map, List.length_range]

/-- C13 as stated fails: when `4294957297` sockets are accepted and admitted,
the last admitted connection, the `4294957297`-th, receives the ID `0`, the
no-ID sentinel, and not `10000 + 4294957296`: `nIDCounter` is a `uint32_t`
and has wrapped around. -/
theorem C13_counterexample :
    admitted (acceptAll (4294957296 + 1)) = 4294957296 + 1 ∧
    ((accept_run (acceptAll (4294957296 + 1)) server_interface.create).2.map
        connection.id).length = 4294957296 + 1 ∧
    ((accept_run (acceptAll (4294957296 + 1)) server_interface.create).2.map
        connection.id).getLast? = some 0 ∧
    (0 : Nat) ≠ 10000 + 4294957296 := by
  refine ⟨admitted_acceptAll _, accept_run_acceptAll_length _ _ (by decide), ?_, by decide⟩
  rw [accept_run_acceptAll_last _ _ (by decide)]
  decide

/-- C13, amended: for every sequence of accept completions, admissions,
rejections and accept errors interleaved in any way, the `k`-th admitted
connection receives the ID `(10000 + (k - 1)) mod 2^32`, the counter
(a `uint32_t`) has been incremented once per admission, the registry holds
exactly the admitted connections in admission order, and a rejected socket
leaves the server as it was and adds no connection. As long as there are at
most `2^32 - 10000` admissions, the `k`-th ID is `10000 + (k - 1)`, the IDs are
strictly increasing in admission order and none is the no-ID sentinel `0`. -/
theorem C13_connection_ids (evs : List AcceptResult) :
    (accept_run evs server_interface.create).2.map connection.id =
        (List.range (admitted evs)).map (fun j => (10000 + j) % 2 ^ 32) ∧
    (accept_run evs server_interface.create).1.nIDCounter = (10000 + admitted evs) % 2 ^ 32 ∧
    (accept_run evs server_interface.create).1.m_deqConnections =
        (admitted_addrs evs).map some ∧
    (accept_run evs server_interface.create).2.map connection.self = admitted_addrs evs ∧
    (∀ (s : server_interface) (addr : Ptr),
        WaitForClientConnection_done (AcceptResult.socket addr false) s = (s, none)) ∧
    (admitted evs ≤ 2 ^ 32 - 10000 →
      (accept_run evs server_interface.create).2.map connection.id =
          (List.range (admitted evs)).map (fun j => 10000 + j) ∧
      List.Pairwise (fun a b => a < b)
          ((accept_run evs server_interface.create).2.map connection.id) ∧
      ∀ i ∈ (accept_run evs server_interface.create).2.map connection.id, i ≠ 0) := by
  obtain ⟨h1, h2, h3, h4⟩ := accept_run_spec evs server_interface.create (by decide)
  have h1b : (accept_run evs server_interface.create).2.map connection.id =
      (List.range (admitted evs)).map (fun j => (10000 + j) % 2 ^ 32) := h1
  refine ⟨h1b, h2, by simpa [server_interface.create] using h3, h4,
    fun s addr => WaitForClientConnection_done_reject addr s, fun hle => ?_⟩
  have hids : (accept_run evs server_interface.create).2.map connection.id =
      (List.range (admitted evs)).map (fun j => 10000 + j) := by
    rw [h1b]
    apply List.map_congr_left
    intro j hj
    have hj2 : j < admitted evs := List.mem_range.mp hj
    omega
  refine ⟨hids, ?_, ?_⟩
  · rw [hids]
    exact List.Pairwise.map _ (fun a b hab => by omega) (List.pairwise_lt_range _)
  · intro i hi
    rw [hids, List.mem_map] at hi
    obtain ⟨j, _, hj⟩ := hi
    omega

/-- C13, amended, at a concrete sequence: an admission, a rejection, an accept
error and another admission. -/
theorem C13_connection_ids_witness :
    (accept_run [AcceptResult.socket 1 true, AcceptResult.socket 2 false, AcceptResult.error,
        AcceptResult.socket 3 true] server_interface.create).2.map connection.id =
      (List.range (admitted [AcceptResult.socket 1 true, AcceptResult.socket 2 false,
        AcceptResult.error, AcceptResult.socket 3 true])).map (fun j => 10000 + j) ∧
    (accept_run [AcceptResult.socket 1 true, AcceptResult.socket 2 false, AcceptResult.error,
        AcceptResult.socket 3 true] server_interface.create).1.m_deqConnections =
      (admitted_addrs [AcceptResult.socket 1 true, AcceptResult.socket 2 false,
        AcceptResult.error, AcceptResult.socket 3 true]).map some :=
  ⟨((C13_connection_ids [AcceptResult.socket 1 true, AcceptResult.socket 2 false,
      AcceptResult.error, AcceptResult.socket 3 true]).2.2.2.2.2 (by decide)).1,
   (C13_connection_ids [AcceptResult.socket 1 true, AcceptResult.socket 2 false,
      AcceptResult.error, AcceptResult.socket 3 true]).2.2.1⟩

end bsl.net
